import Mathlib

/-! # Verification development for `pkg/ghclient/apps.go`

A shallow embedding of the GitHub App client: the three paginated listing
operations (`GetUserAppInstallations`, `GetUserAppRepos`,
`GetUserAppRepoPermissions`) and the token broker
(`GetInstallationTokenForRepo`).

Modelling conventions.

* The upstream GitHub API is a record of transition functions over an
  arbitrary upstream state `σ`; every operation returns its Go result pair,
  the upstream state it leaves behind and the list of upstream calls it made,
  in order.
* A Go `error` is `Option String` (`none` is `nil`, `some m` an error whose
  message is `m`); a Go pointer, slice or map that can be `nil` is an `Option`.
* `int` and `int64` values are `Int`: the code only copies and compares them.
* The `for { ... }` loops carry a fuel argument; `none` means the fuel ran out
  before the loop left, never a Go result.
* Per-page `context.WithTimeout` scopes are not modelled; a timeout shows up
  as the error the upstream call returns.
-/

namespace ghclient

/-! ## Data model -/

/-- Pagination request of go-github (`github.ListOptions`). -/
structure ListOptions where
  Page : Int
  PerPage : Int
  deriving DecidableEq, Repr

/-- Pagination part of a go-github response (`github.Response`). -/
structure Response where
  NextPage : Int
  deriving DecidableEq, Repr

/-- Upstream installation record (`github.Installation`); only `ID` is read. -/
structure Installation where
  ID : Option Int
  deriving DecidableEq, Repr

/-- Upstream repository record (`github.Repository`); only the fields the
package reads. `Permissions` is the free-form `map[string]bool`. -/
structure Repository where
  ID : Option Int
  FullName : Option String
  Permissions : Option (List (String × Bool))
  deriving DecidableEq, Repr

/-- Result of the repository listing call (`github.ListRepositories`). -/
structure ListRepositories where
  Repositories : List (Option Repository)
  deriving DecidableEq, Repr

/-- Permission set of a token request (`github.InstallationPermissions`).
The three fields the package sets are named; `Other` lists every other
permission field that is set, by its JSON name, with its level. A Go struct
literal that names only the three fields leaves `Other` empty. -/
structure InstallationPermissions where
  Contents : Option String := none
  ContentReferences : Option String := none
  Metadata : Option String := none
  Other : List (String × String) := []
  deriving DecidableEq, Repr

/-- Token request body (`github.InstallationTokenOptions`). -/
structure InstallationTokenOptions where
  RepositoryIDs : List Int := []
  Repositories : List String := []
  Permissions : Option InstallationPermissions := none
  deriving DecidableEq, Repr

/-- Upstream token record (`github.InstallationToken`); only `Token` is read. -/
structure InstallationToken where
  Token : Option String
  deriving DecidableEq, Repr

/-- One upstream call, as recorded in an operation's call list. -/
inductive Call where
  | listUserInstallations (lopt : ListOptions)
  | listUserRepos (instID : Int) (lopt : ListOptions)
  | repositoriesGet (owner name : String)
  | createInstallationToken (instID : Int) (opts : InstallationTokenOptions)
  deriving DecidableEq, Repr

/-- The upstream API handle held by `GitHubClient` (`ghc.c`, and the handle
`ghc.getClient(ctx)` returns). A listing call answers either with an error or
with its items and a non-nil response, as go-github does; the two
single-resource calls answer with a possibly-nil record and a possibly-nil
error, because the code checks both. -/
structure Client (σ : Type) where
  ListUserInstallations :
    σ → ListOptions → Except String (List (Option Installation) × Response) × σ
  ListUserRepos :
    σ → Int → ListOptions → Except String (ListRepositories × Response) × σ
  RepositoriesGet :
    σ → String → String → (Option Repository × Option String) × σ
  CreateInstallationToken :
    σ → Int → InstallationTokenOptions → (Option InstallationToken × Option String) × σ

/-- What an operation hands back: the Go result pair `(val, err)`, the
upstream state afterwards and the upstream calls made, oldest first. -/
structure Ret (σ α : Type) where
  val : α
  err : Option String
  state : σ
  calls : List Call

/-! ## Library functions the package calls -/

/-- First occurrence of `sep`: the text before it and the text after it
(`strings.Index` followed by the two slicings of `genSplit`). -/
def cutAt (sep : Char) : List Char → Option (List Char × List Char)
  | [] => none
  | c :: cs =>
    if c = sep then some ([], cs)
    else match cutAt sep cs with
      | none => none
      | some (a, b) => some (c :: a, b)

/-- The loop of Go `strings.genSplit`: at most `cuts` cuts, then the rest. -/
def genSplit (sep : Char) : Nat → List Char → List (List Char)
  | 0, s => [s]
  | cuts + 1, s =>
    match cutAt sep s with
    | none => [s]
    | some (a, b) => a :: genSplit sep cuts b

/-- Go `strings.SplitN(s, sep, n)` for a one-character separator:
`n = 0` gives nil, `n < 0` all substrings, `n > 0` at most `n` substrings,
the last one being the unsplit remainder. -/
def SplitN (s : String) (sep : Char) (n : Int) : List String :=
  if n = 0 then []
  else if n < 0 then (genSplit sep (s.data.count sep) s.data).map String.mk
  else (genSplit sep (n.toNat - 1) s.data).map String.mk

/-- Text that `fmt.Errorf` puts in place of `%w` or `%v` for an error. -/
def fmtErr : Option String → String
  | none => "%!w(<nil>)"
  | some m => m

/-- Go `(*Repository).GetFullName`: nil-safe, the empty string when absent. -/
def GetFullName : Option Repository → String
  | none => ""
  | some r => r.FullName.getD ""

/-- Go `(*Repository).GetPermissions`: nil-safe, the empty map when absent. -/
def GetPermissions : Option Repository → List (String × Bool)
  | none => []
  | some r => r.Permissions.getD []

/-- Go map read `p[k]` on a `map[string]bool`: `false` when `k` is missing. -/
def mapIndex (p : List (String × Bool)) (k : String) : Bool :=
  (p.lookup k).getD false

/-! ## `GetInstallationTokenForRepo` -/

/-- The value of the local `read`. -/
def read : String := "read"

/-- Lines 150 to 167 of `GetInstallationTokenForRepo`: the repository lookup
by `(owner, name)` and the token request, once the name has been split. -/
def GetInstallationTokenForRepo.issue {σ : Type} (c : Client σ) (s : σ) (instID : Int)
    (owner name : String) : Ret σ String :=
  match c.RepositoriesGet s owner name with
  | ((repo, err), s1) =>
    let calls1 := [Call.repositoriesGet owner name]
    match err, repo with
    | some e, _ => ⟨"", some ("error getting repo details: " ++ fmtErr (some e)), s1, calls1⟩
    | none, none => ⟨"", some ("error getting repo details: " ++ fmtErr none), s1, calls1⟩
    | none, some r =>
      match r.ID with
      | none => ⟨"", some ("error getting repo details: " ++ fmtErr none), s1, calls1⟩
      | some repoID =>
        let opts : InstallationTokenOptions :=
          { RepositoryIDs := [repoID],
            Permissions := some
              { Contents := some read,
                ContentReferences := some read,
                Metadata := some read } }
        match c.CreateInstallationToken s1 instID opts with
        | ((tkn, err2), s2) =>
          let calls2 := calls1 ++ [Call.createInstallationToken instID opts]
          match err2, tkn with
          | some e, _ =>
            ⟨"", some ("error getting installation token: " ++ fmtErr (some e)), s2, calls2⟩
          | none, none =>
            ⟨"", some ("error getting installation token: " ++ fmtErr none), s2, calls2⟩
          | none, some t =>
            match t.Token with
            | none =>
              ⟨"", some ("error getting installation token: " ++ fmtErr none), s2, calls2⟩
            | some tok => ⟨tok, none, s2, calls2⟩

/-- Go `GetInstallationTokenForRepo`: split the name with
`strings.SplitN(reponame, "/", 1)`, require two parts, then look the
repository up and request the token. -/
def GetInstallationTokenForRepo {σ : Type} (c : Client σ) (s : σ) (instID : Int)
    (reponame : String) : Ret σ String :=
  let rs := SplitN reponame '/' 1
  if rs.length ≠ 2 then
    ⟨"", some ("malformed repo name (expected: [owner]/[name]): " ++ reponame), s, []⟩
  else
    GetInstallationTokenForRepo.issue c s instID (rs.getD 0 "") (rs.getD 1 "")

/-! ## Installations -/

/-- Go `AppInstallation`. -/
structure AppInstallation where
  ID : Int
  deriving DecidableEq, Repr

/-- Go `AppInstallations`, a slice of `AppInstallation`. -/
abbrev AppInstallations := List AppInstallation

/-- Go `AppInstallations.IDPresent`: linear scan for an equal identifier. -/
def IDPresent : AppInstallations → Int → Bool
  | [], _ => false
  | inst :: rest, id => if inst.ID = id then true else IDPresent rest id

/-- Go `appInstallationsFromGitHubInstallations`: a slice of the same length,
zero-valued, whose entry `i` receives the identifier of record `i` when the
record and its identifier are both non-nil. -/
def appInstallationsFromGitHubInstallations (recs : List (Option Installation)) :
    AppInstallations :=
  recs.map fun inst =>
    match inst with
    | some i =>
      match i.ID with
      | some id => { ID := id }
      | none => { ID := 0 }
    | none => { ID := 0 }

/-- The `for` loop of `GetUserAppInstallations`; `out` accumulates the
records, `calls` the requests made so far. -/
def GetUserAppInstallations.loop {σ : Type} (c : Client σ) :
    Nat → σ → ListOptions → List (Option Installation) → List Call →
      Option (Ret σ (Option AppInstallations))
  | 0, _, _, _, _ => none
  | fuel + 1, s, lopt, out, calls =>
    match c.ListUserInstallations s lopt with
    | (Except.error err, s1) =>
      some ⟨none, some ("error listing user installations: " ++ err), s1,
        calls ++ [Call.listUserInstallations lopt]⟩
    | (Except.ok (insts, resp), s1) =>
      if resp.NextPage = 0 then
        some ⟨some (appInstallationsFromGitHubInstallations (out ++ insts)), none, s1,
          calls ++ [Call.listUserInstallations lopt]⟩
      else
        GetUserAppInstallations.loop c fuel s1 { lopt with Page := resp.NextPage }
          (out ++ insts) (calls ++ [Call.listUserInstallations lopt])

/-- Go `GetUserAppInstallations`. -/
def GetUserAppInstallations {σ : Type} (c : Client σ) (fuel : Nat) (s : σ) :
    Option (Ret σ (Option AppInstallations)) :=
  GetUserAppInstallations.loop c fuel s { Page := 0, PerPage := 100 } [] []

/-! ## Repositories -/

/-- The inner `for` of `GetUserAppRepos`: append the full name of every
record that is non-nil and has one. -/
def appendFullNames (out : List String) (repos : List (Option Repository)) : List String :=
  repos.foldl
    (fun out repo =>
      match repo with
      | some r =>
        match r.FullName with
        | some fn => out ++ [fn]
        | none => out
      | none => out)
    out

/-- The outer `for` loop of `GetUserAppRepos`. -/
def GetUserAppRepos.loop {σ : Type} (c : Client σ) (instID : Int) :
    Nat → σ → ListOptions → List String → List Call → Option (Ret σ (Option (List String)))
  | 0, _, _, _, _ => none
  | fuel + 1, s, lopt, out, calls =>
    match c.ListUserRepos s instID lopt with
    | (Except.error err, s1) =>
      some ⟨none, some ("error listing user repos: " ++ err), s1,
        calls ++ [Call.listUserRepos instID lopt]⟩
    | (Except.ok (repos, resp), s1) =>
      if resp.NextPage = 0 then
        some ⟨some (appendFullNames out repos.Repositories), none, s1,
          calls ++ [Call.listUserRepos instID lopt]⟩
      else
        GetUserAppRepos.loop c instID fuel s1 { lopt with Page := resp.NextPage }
          (appendFullNames out repos.Repositories) (calls ++ [Call.listUserRepos instID lopt])

/-- Go `GetUserAppRepos`. -/
def GetUserAppRepos {σ : Type} (c : Client σ) (fuel : Nat) (s : σ) (instID : Int) :
    Option (Ret σ (Option (List String))) :=
  GetUserAppRepos.loop c instID fuel s { Page := 0, PerPage := 100 } [] []

/-! ## Repository permissions -/

/-- Go `AppRepoPermissions`. -/
structure AppRepoPermissions where
  Repo : String
  Admin : Bool
  Push : Bool
  Pull : Bool
  deriving DecidableEq, Repr

/-- A Go `map[string]AppRepoPermissions`: a list of bindings with pairwise
distinct keys. -/
abbrev PermMap := List (String × AppRepoPermissions)

/-- Go map assignment `m[k] = v`: the binding of `k` is replaced. -/
def PermMap.set (m : PermMap) (k : String) (v : AppRepoPermissions) : PermMap :=
  (k, v) :: m.filter (fun e => e.1 ≠ k)

/-- Go map read `v, ok := m[k]`. -/
def PermMap.get? (m : PermMap) (k : String) : Option AppRepoPermissions :=
  m.lookup k

/-- Keys of a Go map. -/
def PermMap.keys (m : PermMap) : List String :=
  m.map (fun e => e.1)

/-- The descriptor the second loop of `GetUserAppRepoPermissions` stores for
one record. -/
def descriptor (r : Option Repository) : AppRepoPermissions :=
  { Repo := GetFullName r,
    Admin := mapIndex (GetPermissions r) "admin",
    Push := mapIndex (GetPermissions r) "push",
    Pull := mapIndex (GetPermissions r) "pull" }

/-- The second loop of `GetUserAppRepoPermissions`: one map assignment per
record, keyed by `r.GetFullName()`. -/
def GetUserAppRepoPermissions.collect (rs : List (Option Repository)) : PermMap :=
  rs.foldl (fun out r => out.set (GetFullName r) (descriptor r)) []

/-- The first loop of `GetUserAppRepoPermissions`, continued by the second
loop where the Go code leaves it with `break`. -/
def GetUserAppRepoPermissions.loop {σ : Type} (c : Client σ) (instID : Int) :
    Nat → σ → ListOptions → List (Option Repository) → List Call →
      Option (Ret σ (Option PermMap))
  | 0, _, _, _, _ => none
  | fuel + 1, s, lopt, rs, calls =>
    match c.ListUserRepos s instID lopt with
    | (Except.error err, s1) =>
      some ⟨none, some ("error listing user repos: " ++ err), s1,
        calls ++ [Call.listUserRepos instID lopt]⟩
    | (Except.ok (repos, resp), s1) =>
      if resp.NextPage = 0 then
        some ⟨some (GetUserAppRepoPermissions.collect (rs ++ repos.Repositories)), none, s1,
          calls ++ [Call.listUserRepos instID lopt]⟩
      else
        GetUserAppRepoPermissions.loop c instID fuel s1 { lopt with Page := resp.NextPage }
          (rs ++ repos.Repositories) (calls ++ [Call.listUserRepos instID lopt])

/-- Go `GetUserAppRepoPermissions`. -/
def GetUserAppRepoPermissions {σ : Type} (c : Client σ) (fuel : Nat) (s : σ) (instID : Int) :
    Option (Ret σ (Option PermMap)) :=
  GetUserAppRepoPermissions.loop c instID fuel s { Page := 0, PerPage := 100 } [] []

/-! ## Specification vocabulary -/

/-- The form `owner/name`: cutting the text at every `/` leaves exactly two
parts, the owner and the name, neither of them empty. -/
def isOwnerSlashName (repoFullName : String) : Bool :=
  match genSplit '/' (repoFullName.data.count '/') repoFullName.data with
  | [owner, name] => !owner.isEmpty && !name.isEmpty
  | _ => false

/-- An upstream without state that answers each call from a fixed table. -/
def tableClient
    (insts : ListOptions → Except String (List (Option Installation) × Response))
    (repos : Int → ListOptions → Except String (ListRepositories × Response))
    (repo : String → String → Option Repository × Option String)
    (token : Int → InstallationTokenOptions → Option InstallationToken × Option String) :
    Client Unit :=
  { ListUserInstallations := fun s lopt => (insts lopt, s),
    ListUserRepos := fun s instID lopt => (repos instID lopt, s),
    RepositoriesGet := fun s owner name => (repo owner name, s),
    CreateInstallationToken := fun s instID opts => (token instID opts, s) }

/-- An upstream on which every repository exists with identifier 7 and every
token request is granted the token `tkn-7`. -/
def grantingClient : Client Unit :=
  tableClient (fun _ => Except.error "unused") (fun _ _ => Except.error "unused")
    (fun owner name =>
      (some { ID := some 7, FullName := some (owner ++ "/" ++ name), Permissions := none },
        none))
    (fun _ _ => (some { Token := some "tkn-7" }, none))

/-- Three installation pages: page 0 points to page 2, page 2 is empty and
points to page 5, page 5 is the last one. -/
def sampleInstallationPages : List (List (Option Installation) × Response) :=
  [([some { ID := some 11 }], { NextPage := 2 }),
   ([], { NextPage := 5 }),
   ([some { ID := some 12 }, some { ID := some 13 }], { NextPage := 0 })]

/-- Three repository pages with the same page numbers; `org/a` comes twice. -/
def sampleRepositoryPages : List (ListRepositories × Response) :=
  [({ Repositories :=
        [some { ID := some 1, FullName := some "org/a",
                Permissions := some [("admin", true), ("pull", true)] }] },
    { NextPage := 2 }),
   ({ Repositories := [] }, { NextPage := 5 }),
   ({ Repositories :=
        [some { ID := some 2, FullName := some "org/b", Permissions := none },
         some { ID := some 1, FullName := some "org/a",
                Permissions := some [("pull", true)] }] },
    { NextPage := 0 })]

/-- Answer of a paged table: page 0, 2 and 5 hold the three pages of `pages`
and every other page number is an error. -/
def pageTable {β : Type} (pages : List (β × Response)) (lopt : ListOptions) :
    Except String (β × Response) :=
  match (if lopt.Page = 0 then pages.get? 0
         else if lopt.Page = 2 then pages.get? 1
         else if lopt.Page = 5 then pages.get? 2
         else none) with
  | some pg => Except.ok pg
  | none => Except.error "timeout"

/-- An upstream that serves the sample pages. -/
def sampleClient : Client Unit :=
  tableClient (pageTable sampleInstallationPages) (fun _ => pageTable sampleRepositoryPages)
    (fun _ _ => (none, some "unused")) (fun _ _ => (none, some "unused"))

/-- An upstream that serves the first two sample pages and then times out. -/
def failingClient : Client Unit :=
  tableClient (pageTable (sampleInstallationPages.take 2))
    (fun _ => pageTable (sampleRepositoryPages.take 2))
    (fun _ _ => (none, some "unused")) (fun _ _ => (none, some "unused"))

/-- An upstream whose single installation page holds one record without an
identifier and whose single repository page holds a nil record and a record
without a full name. -/
def blankClient : Client Unit :=
  tableClient
    (fun _ => Except.ok ([some { ID := none }], { NextPage := 0 }))
    (fun _ _ => Except.ok
      ({ Repositories :=
          [none, some { ID := some 3, FullName := none,
                        Permissions := some [("admin", true)] }] },
        { NextPage := 0 }))
    (fun _ _ => (none, some "unused")) (fun _ _ => (none, some "unused"))

/-- Flag a record stores under key `k` of its permission map: `false` when
the key is missing, when the record has no permission map and when the record
itself is nil. -/
def permissionFlag (rec : Option Repository) (k : String) : Bool :=
  match rec with
  | none => false
  | some r =>
    match r.Permissions with
    | none => false
    | some p =>
      match p.lookup k with
      | none => false
      | some b => b

/-- Last record of `recs`, in list order, whose full name as read by
`GetFullName` is `n`. -/
def lastNamed (recs : List (Option Repository)) (n : String) : Option (Option Repository) :=
  (recs.filter (fun rec => GetFullName rec = n)).getLast?

/-- One repository page: a record whose full name is the empty text, with
`admin` set, followed by a nil record. -/
def emptyNamePages : List (ListRepositories × Response) :=
  [({ Repositories :=
        [some { ID := some 5, FullName := some "", Permissions := some [("admin", true)] },
         none] },
    { NextPage := 0 })]

/-- An upstream that serves `emptyNamePages`. -/
def emptyNameClient : Client Unit :=
  tableClient (fun _ => Except.error "unused")
    (fun _ lopt =>
      if lopt.Page = 0 then
        Except.ok
          ({ Repositories :=
              [some { ID := some 5, FullName := some "",
                      Permissions := some [("admin", true)] },
               none] },
            { NextPage := 0 })
      else Except.error "timeout")
    (fun _ _ => (none, some "unused")) (fun _ _ => (none, some "unused"))

/-! ## Upstream page chains -/

/-- The upstream, asked for `lopt` in state `s`, answers the pages `rs` one
after the other without error when each request after the first carries the
previous response's `NextPage`: every page but the last has a non-zero
`NextPage` and the last one has `NextPage = 0`. -/
def Drains {σ β : Type} (fetch : σ → ListOptions → Except String (β × Response) × σ) :
    σ → ListOptions → List (β × Response) → Prop
  | _, _, [] => False
  | s, lopt, pg :: rest =>
    (fetch s lopt).1 = Except.ok pg ∧
      if pg.2.NextPage = 0 then rest = []
      else Drains fetch (fetch s lopt).2 { lopt with Page := pg.2.NextPage } rest

/-- The upstream, asked for `lopt` in state `s`, answers the pages `rs`
without error, none of them the last one (`NextPage` non-zero), and then
fails the next request with error `e`. -/
def FailsAfter {σ β : Type} (fetch : σ → ListOptions → Except String (β × Response) × σ) :
    σ → ListOptions → List (β × Response) → String → Prop
  | s, lopt, [], e => (fetch s lopt).1 = Except.error e
  | s, lopt, pg :: rest, e =>
    (fetch s lopt).1 = Except.ok pg ∧ pg.2.NextPage ≠ 0 ∧
      FailsAfter fetch (fetch s lopt).2 { lopt with Page := pg.2.NextPage } rest e

/-- Deciding whether an upstream answer is the success `b`. -/
instance decEqOk {β : Type} [DecidableEq β] (x : Except String β) (b : β) :
    Decidable (x = Except.ok b) :=
  match x with
  | Except.ok a =>
    if h : a = b then isTrue (by rw [h])
    else isFalse (by intro hx; cases hx; exact h rfl)
  | Except.error _ => isFalse (by intro hx; cases hx)

/-- Deciding whether an upstream answer is the error `e`. -/
instance decEqError {β : Type} (x : Except String β) (e : String) :
    Decidable (x = Except.error e) :=
  match x with
  | Except.ok _ => isFalse (by intro hx; cases hx)
  | Except.error a =>
    if h : a = e then isTrue (by rw [h])
    else isFalse (by intro hx; cases hx; exact h rfl)

/-- The chain predicate `Drains` can be evaluated. -/
instance decidableDrains {σ β : Type} [DecidableEq β]
    (fetch : σ → ListOptions → Except String (β × Response) × σ) :
    ∀ (s : σ) (lopt : ListOptions) (rs : List (β × Response)),
      Decidable (Drains fetch s lopt rs)
  | _, _, [] => isFalse (fun h => h)
  | s, lopt, pg :: rest =>
    have : Decidable
        (Drains fetch (fetch s lopt).2 { lopt with Page := pg.2.NextPage } rest) :=
      decidableDrains fetch _ _ rest
    by unfold Drains; exact inferInstance

/-- The chain predicate `FailsAfter` can be evaluated. -/
instance decidableFailsAfter {σ β : Type} [DecidableEq β]
    (fetch : σ → ListOptions → Except String (β × Response) × σ) (e : String) :
    ∀ (s : σ) (lopt : ListOptions) (rs : List (β × Response)),
      Decidable (FailsAfter fetch s lopt rs e)
  | s, lopt, [] => by unfold FailsAfter; exact inferInstance
  | s, lopt, pg :: rest =>
    have : Decidable
        (FailsAfter fetch (fetch s lopt).2 { lopt with Page := pg.2.NextPage } rest e) :=
      decidableFailsAfter fetch e _ _ rest
    by unfold FailsAfter; exact inferInstance

/-- Requests that follow the chain `rs` from `lopt`: one per page, each
carrying the `NextPage` of the response before it. -/
def requests {β : Type} : ListOptions → List (β × Response) → List ListOptions
  | _, [] => []
  | lopt, pg :: rest => lopt :: requests { lopt with Page := pg.2.NextPage } rest

/-- Request that comes after the chain `rs` from `lopt`. -/
def nextRequest {β : Type} : ListOptions → List (β × Response) → ListOptions
  | lopt, [] => lopt
  | lopt, pg :: rest => nextRequest { lopt with Page := pg.2.NextPage } rest

/-- Upstream state once the chain `rs` from `lopt` has been answered. -/
def stateAfter {σ β : Type} (fetch : σ → ListOptions → Except String (β × Response) × σ) :
    σ → ListOptions → List (β × Response) → σ
  | s, _, [] => s
  | s, lopt, pg :: rest =>
    stateAfter fetch (fetch s lopt).2 { lopt with Page := pg.2.NextPage } rest

/-- Installation records of the pages `rs`, page after page. -/
def installationRecords (rs : List (List (Option Installation) × Response)) :
    List (Option Installation) :=
  rs.foldr (fun pg acc => pg.1 ++ acc) []

/-- Repository records of the pages `rs`, page after page. -/
def repositoryRecords (rs : List (ListRepositories × Response)) : List (Option Repository) :=
  rs.foldr (fun pg acc => pg.1.Repositories ++ acc) []

/-- Full name of a record that is present and has one. -/
def fullName? : Option Repository → Option String
  | none => none
  | some r => r.FullName

/-- Identifier carried by an installation record, if any. -/
def installationID? : Option Installation → Option Int
  | none => none
  | some i => i.ID

/-! ## Lemmas on the page loops -/

theorem requests_pages {β : Type} (rs : List (β × Response)) (lopt : ListOptions) :
    requests lopt rs =
      ((lopt.Page :: rs.map (fun pg => pg.2.NextPage)).take rs.length).map
        (fun p => { Page := p, PerPage := lopt.PerPage }) := by
  induction rs generalizing lopt with
  | nil => rfl
  | cons pg rest ih =>
    simp only [requests, List.map_cons, List.length_cons, List.take_succ_cons]
    rw [ih]

theorem requests_snoc_pages {β : Type} (rs : List (β × Response)) (lopt : ListOptions) :
    requests lopt rs ++ [nextRequest lopt rs] =
      (lopt.Page :: rs.map (fun pg => pg.2.NextPage)).map
        (fun p => { Page := p, PerPage := lopt.PerPage }) := by
  induction rs generalizing lopt with
  | nil => rfl
  | cons pg rest ih =>
    simp only [requests, nextRequest, List.map_cons, List.cons_append]
    rw [ih]
    simp

theorem GetUserAppInstallations_loop_drains {σ : Type} (c : Client σ)
    (rs : List (List (Option Installation) × Response)) :
    ∀ (fuel : Nat) (s : σ) (lopt : ListOptions) (out : List (Option Installation))
      (calls : List Call),
      Drains c.ListUserInstallations s lopt rs → rs.length ≤ fuel →
      GetUserAppInstallations.loop c fuel s lopt out calls =
        some ⟨some (appInstallationsFromGitHubInstallations (out ++ installationRecords rs)),
          none, stateAfter c.ListUserInstallations s lopt rs,
          calls ++ (requests lopt rs).map Call.listUserInstallations⟩ := by
  induction rs with
  | nil => intro fuel s lopt out calls h; exact absurd h (by simp [Drains])
  | cons pg rest ih =>
    intro fuel s lopt out calls h hf
    obtain ⟨hpg, hrest⟩ := h
    cases fuel with
    | zero => simp at hf
    | succ fuel =>
      obtain ⟨items, resp⟩ := pg
      rcases hc : c.ListUserInstallations s lopt with ⟨r, s1⟩
      rw [hc] at hpg hrest
      simp only at hpg hrest
      subst hpg
      by_cases hn : resp.NextPage = 0
      · simp only [hn, if_true] at hrest
        subst hrest
        simp [GetUserAppInstallations.loop, hc, hn, installationRecords, stateAfter, requests]
      · simp only [hn, if_false] at hrest
        have hf2 : rest.length ≤ fuel := by simpa using hf
        simp only [GetUserAppInstallations.loop, hc, hn, if_false]
        rw [ih fuel s1 _ _ _ hrest hf2]
        simp [installationRecords, stateAfter, requests, hc]

theorem GetUserAppInstallations_loop_fails {σ : Type} (c : Client σ)
    (rs : List (List (Option Installation) × Response)) (e : String) :
    ∀ (fuel : Nat) (s : σ) (lopt : ListOptions) (out : List (Option Installation))
      (calls : List Call),
      FailsAfter c.ListUserInstallations s lopt rs e → rs.length < fuel →
      GetUserAppInstallations.loop c fuel s lopt out calls =
        some ⟨none, some ("error listing user installations: " ++ e),
          (c.ListUserInstallations (stateAfter c.ListUserInstallations s lopt rs)
            (nextRequest lopt rs)).2,
          calls ++ (requests lopt rs ++ [nextRequest lopt rs]).map
            Call.listUserInstallations⟩ := by
  induction rs with
  | nil =>
    intro fuel s lopt out calls h hf
    cases fuel with
    | zero => simp at hf
    | succ fuel =>
      rcases hc : c.ListUserInstallations s lopt with ⟨r, s1⟩
      simp only [FailsAfter, hc] at h
      subst h
      simp [GetUserAppInstallations.loop, hc, stateAfter, requests, nextRequest]
  | cons pg rest ih =>
    intro fuel s lopt out calls h hf
    obtain ⟨hpg, hn, hrest⟩ := h
    cases fuel with
    | zero => simp at hf
    | succ fuel =>
      obtain ⟨items, resp⟩ := pg
      rcases hc : c.ListUserInstallations s lopt with ⟨r, s1⟩
      rw [hc] at hpg hrest
      simp only at hpg hrest hn
      subst hpg
      have hf2 : rest.length < fuel := by simpa using hf
      simp only [GetUserAppInstallations.loop, hc, hn, if_false]
      rw [ih fuel s1 _ _ _ hrest hf2]
      simp [stateAfter, requests, nextRequest, hc]

theorem appendFullNames_eq (repos : List (Option Repository)) :
    ∀ out : List String, appendFullNames out repos = out ++ repos.filterMap fullName? := by
  induction repos with
  | nil => intro out; simp [appendFullNames]
  | cons r rest ih =>
    intro out
    have step : ∀ o : List String, appendFullNames o (r :: rest) =
        appendFullNames (match r with
          | some r =>
            match r.FullName with
            | some fn => o ++ [fn]
            | none => o
          | none => o) rest := fun _ => rfl
    rw [step, ih]
    cases r with
    | none => simp [fullName?]
    | some r =>
      cases hfn : r.FullName with
      | none => simp [fullName?, hfn]
      | some fn => simp [fullName?, hfn]

theorem repositoryRecords_filterMap (pg : ListRepositories × Response)
    (rest : List (ListRepositories × Response)) :
    (repositoryRecords (pg :: rest)).filterMap fullName? =
      pg.1.Repositories.filterMap fullName? ++ (repositoryRecords rest).filterMap fullName? := by
  simp [repositoryRecords]

theorem GetUserAppRepos_loop_drains {σ : Type} (c : Client σ) (instID : Int)
    (rs : List (ListRepositories × Response)) :
    ∀ (fuel : Nat) (s : σ) (lopt : ListOptions) (out : List String) (calls : List Call),
      Drains (fun s lopt => c.ListUserRepos s instID lopt) s lopt rs → rs.length ≤ fuel →
      GetUserAppRepos.loop c instID fuel s lopt out calls =
        some ⟨some (out ++ (repositoryRecords rs).filterMap fullName?),
          none, stateAfter (fun s lopt => c.ListUserRepos s instID lopt) s lopt rs,
          calls ++ (requests lopt rs).map (Call.listUserRepos instID)⟩ := by
  induction rs with
  | nil => intro fuel s lopt out calls h; exact absurd h (by simp [Drains])
  | cons pg rest ih =>
    intro fuel s lopt out calls h hf
    obtain ⟨hpg, hrest⟩ := h
    cases fuel with
    | zero => simp at hf
    | succ fuel =>
      obtain ⟨items, resp⟩ := pg
      rcases hc : c.ListUserRepos s instID lopt with ⟨r, s1⟩
      simp only [hc] at hpg hrest
      subst hpg
      by_cases hn : resp.NextPage = 0
      · simp only [hn, if_true] at hrest
        subst hrest
        simp [GetUserAppRepos.loop, hc, hn, repositoryRecords, stateAfter, requests,
          appendFullNames_eq]
      · simp only [hn, if_false] at hrest
        have hf2 : rest.length ≤ fuel := by simpa using hf
        simp only [GetUserAppRepos.loop, hc, hn, if_false]
        rw [ih fuel s1 _ _ _ hrest hf2]
        simp [repositoryRecords, stateAfter, requests, hc, appendFullNames_eq]

theorem GetUserAppRepos_loop_fails {σ : Type} (c : Client σ) (instID : Int)
    (rs : List (ListRepositories × Response)) (e : String) :
    ∀ (fuel : Nat) (s : σ) (lopt : ListOptions) (out : List String) (calls : List Call),
      FailsAfter (fun s lopt => c.ListUserRepos s instID lopt) s lopt rs e → rs.length < fuel →
      GetUserAppRepos.loop c instID fuel s lopt out calls =
        some ⟨none, some ("error listing user repos: " ++ e),
          (c.ListUserRepos (stateAfter (fun s lopt => c.ListUserRepos s instID lopt) s lopt rs)
            instID (nextRequest lopt rs)).2,
          calls ++ (requests lopt rs ++ [nextRequest lopt rs]).map
            (Call.listUserRepos instID)⟩ := by
  induction rs with
  | nil =>
    intro fuel s lopt out calls h hf
    cases fuel with
    | zero => simp at hf
    | succ fuel =>
      rcases hc : c.ListUserRepos s instID lopt with ⟨r, s1⟩
      simp only [FailsAfter, hc] at h
      subst h
      simp [GetUserAppRepos.loop, hc, stateAfter, requests, nextRequest]
  | cons pg rest ih =>
    intro fuel s lopt out calls h hf
    obtain ⟨hpg, hn, hrest⟩ := h
    cases fuel with
    | zero => simp at hf
    | succ fuel =>
      obtain ⟨items, resp⟩ := pg
      rcases hc : c.ListUserRepos s instID lopt with ⟨r, s1⟩
      simp only [hc] at hpg hrest hn
      subst hpg
      have hf2 : rest.length < fuel := by simpa using hf
      simp only [GetUserAppRepos.loop, hc, hn, if_false]
      rw [ih fuel s1 _ _ _ hrest hf2]
      simp [stateAfter, requests, nextRequest, hc]

theorem GetUserAppRepoPermissions_loop_drains {σ : Type} (c : Client σ) (instID : Int)
    (rs : List (ListRepositories × Response)) :
    ∀ (fuel : Nat) (s : σ) (lopt : ListOptions) (acc : List (Option Repository))
      (calls : List Call),
      Drains (fun s lopt => c.ListUserRepos s instID lopt) s lopt rs → rs.length ≤ fuel →
      GetUserAppRepoPermissions.loop c instID fuel s lopt acc calls =
        some ⟨some (GetUserAppRepoPermissions.collect (acc ++ repositoryRecords rs)),
          none, stateAfter (fun s lopt => c.ListUserRepos s instID lopt) s lopt rs,
          calls ++ (requests lopt rs).map (Call.listUserRepos instID)⟩ := by
  induction rs with
  | nil => intro fuel s lopt acc calls h; exact absurd h (by simp [Drains])
  | cons pg rest ih =>
    intro fuel s lopt acc calls h hf
    obtain ⟨hpg, hrest⟩ := h
    cases fuel with
    | zero => simp at hf
    | succ fuel =>
      obtain ⟨items, resp⟩ := pg
      rcases hc : c.ListUserRepos s instID lopt with ⟨r, s1⟩
      simp only [hc] at hpg hrest
      subst hpg
      by_cases hn : resp.NextPage = 0
      · simp only [hn, if_true] at hrest
        subst hrest
        simp [GetUserAppRepoPermissions.loop, hc, hn, repositoryRecords, stateAfter, requests]
      · simp only [hn, if_false] at hrest
        have hf2 : rest.length ≤ fuel := by simpa using hf
        simp only [GetUserAppRepoPermissions.loop, hc, hn, if_false]
        rw [ih fuel s1 _ _ _ hrest hf2]
        simp [repositoryRecords, stateAfter, requests, hc]

theorem GetUserAppRepoPermissions_loop_fails {σ : Type} (c : Client σ) (instID : Int)
    (rs : List (ListRepositories × Response)) (e : String) :
    ∀ (fuel : Nat) (s : σ) (lopt : ListOptions) (acc : List (Option Repository))
      (calls : List Call),
      FailsAfter (fun s lopt => c.ListUserRepos s instID lopt) s lopt rs e → rs.length < fuel →
      GetUserAppRepoPermissions.loop c instID fuel s lopt acc calls =
        some ⟨none, some ("error listing user repos: " ++ e),
          (c.ListUserRepos (stateAfter (fun s lopt => c.ListUserRepos s instID lopt) s lopt rs)
            instID (nextRequest lopt rs)).2,
          calls ++ (requests lopt rs ++ [nextRequest lopt rs]).map
            (Call.listUserRepos instID)⟩ := by
  induction rs with
  | nil =>
    intro fuel s lopt acc calls h hf
    cases fuel with
    | zero => simp at hf
    | succ fuel =>
      rcases hc : c.ListUserRepos s instID lopt with ⟨r, s1⟩
      simp only [FailsAfter, hc] at h
      subst h
      simp [GetUserAppRepoPermissions.loop, hc, stateAfter, requests, nextRequest]
  | cons pg rest ih =>
    intro fuel s lopt acc calls h hf
    obtain ⟨hpg, hn, hrest⟩ := h
    cases fuel with
    | zero => simp at hf
    | succ fuel =>
      obtain ⟨items, resp⟩ := pg
      rcases hc : c.ListUserRepos s instID lopt with ⟨r, s1⟩
      simp only [hc] at hpg hrest hn
      subst hpg
      have hf2 : rest.length < fuel := by simpa using hf
      simp only [GetUserAppRepoPermissions.loop, hc, hn, if_false]
      rw [ih fuel s1 _ _ _ hrest hf2]
      simp [stateAfter, requests, nextRequest, hc]

/-! ## Lemmas on installations -/

theorem appInstallations_map_of_complete (recs : List (Option Installation))
    (h : ∀ rec ∈ recs, ∃ id : Int, rec = some { ID := some id }) :
    (appInstallationsFromGitHubInstallations recs).map
      (fun a => some ({ ID := some a.ID } : Installation)) = recs := by
  induction recs with
  | nil => rfl
  | cons rec rest ih =>
    obtain ⟨id, hid⟩ := h rec (List.mem_cons_self _ _)
    have hrest := ih (fun x hx => h x (List.mem_cons_of_mem _ hx))
    unfold appInstallationsFromGitHubInstallations at hrest ⊢
    rw [List.map_cons, List.map_cons, hrest, hid]

theorem IDPresent_appInstallations (recs : List (Option Installation)) (id : Int) :
    IDPresent (appInstallationsFromGitHubInstallations recs) id = true ↔
      (∃ rec ∈ recs, installationID? rec = some id) ∨
      (id = 0 ∧ ∃ rec ∈ recs, installationID? rec = none) := by
  induction recs with
  | nil => simp [appInstallationsFromGitHubInstallations, IDPresent]
  | cons rec rest ih =>
    have step : IDPresent (appInstallationsFromGitHubInstallations (rec :: rest)) id =
        if (match rec with
            | some i =>
              match i.ID with
              | some k => ({ ID := k } : AppInstallation)
              | none => { ID := 0 }
            | none => { ID := 0 }).ID = id then true
        else IDPresent (appInstallationsFromGitHubInstallations rest) id := rfl
    rw [step]
    cases rec with
    | none =>
      by_cases h0 : (0 : Int) = id
      · subst h0
        simp [installationID?]
      · have h0b : ¬ id = 0 := fun h => h0 h.symm
        simp [installationID?, h0, h0b, ih]
    | some i =>
      cases hk : i.ID with
      | none =>
        by_cases h0 : (0 : Int) = id
        · subst h0
          simp [installationID?, hk]
        · have h0b : ¬ id = 0 := fun h => h0 h.symm
          simp [installationID?, hk, h0, h0b, ih]
      | some k =>
        by_cases hkid : k = id
        · subst hkid
          simp [installationID?, hk]
        · simp [installationID?, hk, hkid, ih]

/-! ## Lemmas on the permission map -/

theorem lookup_filter_ne (m : PermMap) (k n : String) (h : n ≠ k) :
    (m.filter (fun e => e.1 ≠ k)).lookup n = m.lookup n := by
  induction m with
  | nil => rfl
  | cons e rest ih =>
    obtain ⟨k1, v1⟩ := e
    by_cases hk : k1 = k
    · subst hk
      have hb : (n == k1) = false := by simpa using h
      simpa [List.filter_cons, List.lookup_cons, hb] using ih
    · by_cases hn : n = k1
      · subst hn
        simp [List.filter_cons, List.lookup_cons, hk]
      · have hb : (n == k1) = false := by simpa using hn
        simpa [List.filter_cons, List.lookup_cons, hk, hb] using ih

theorem PermMap_lookup_set (m : PermMap) (k n : String) (v : AppRepoPermissions) :
    (PermMap.set m k v).lookup n = if n = k then some v else m.lookup n := by
  by_cases h : n = k
  · subst h
    simp [PermMap.set, List.lookup_cons]
  · have hb : (n == k) = false := by simpa using h
    have hl := lookup_filter_ne m k n h
    simpa [PermMap.set, List.lookup_cons, hb, h] using hl

theorem lookup_foldl_set (recs : List (Option Repository)) (n : String) :
    ∀ m : PermMap,
      (recs.foldl (fun out r => PermMap.set out (GetFullName r) (descriptor r)) m).lookup n =
        match lastNamed recs n with
        | some rec => some (descriptor rec)
        | none => m.lookup n := by
  induction recs with
  | nil => intro m; simp [lastNamed]
  | cons rec rest ih =>
    intro m
    rw [List.foldl_cons, ih]
    unfold lastNamed
    by_cases hp : GetFullName rec = n
    · rw [List.filter_cons_of_pos (by simpa using hp)]
      cases hl : (rest.filter (fun rec => decide (GetFullName rec = n))).getLast? with
      | none =>
        have hnil : rest.filter (fun rec => decide (GetFullName rec = n)) = [] := by
          simpa using hl
        simp [hnil, PermMap_lookup_set, hp]
      | some last =>
        rw [List.getLast?_cons, hl]
        simp
    · rw [List.filter_cons_of_neg (by simpa using hp)]
      cases hl : (rest.filter (fun rec => decide (GetFullName rec = n))).getLast? with
      | none =>
        have hne : ¬ n = GetFullName rec := fun h => hp h.symm
        simp [PermMap_lookup_set, hne]
      | some last => simp

theorem collect_get? (recs : List (Option Repository)) (n : String) :
    PermMap.get? (GetUserAppRepoPermissions.collect recs) n =
      (lastNamed recs n).map descriptor := by
  unfold PermMap.get? GetUserAppRepoPermissions.collect
  rw [lookup_foldl_set]
  cases lastNamed recs n <;> rfl

theorem descriptor_flags (rec : Option Repository) :
    descriptor rec =
      { Repo := GetFullName rec, Admin := permissionFlag rec "admin",
        Push := permissionFlag rec "push", Pull := permissionFlag rec "pull" } := by
  cases rec with
  | none => rfl
  | some r =>
    cases hp : r.Permissions with
    | none => simp [descriptor, GetPermissions, mapIndex, permissionFlag, hp]
    | some p =>
      simp only [descriptor, GetPermissions, mapIndex, permissionFlag, hp, Option.getD_some]
      cases p.lookup "admin" <;> cases p.lookup "push" <;> cases p.lookup "pull" <;> rfl

theorem lastNamed_name (recs : List (Option Repository)) (n : String)
    (rec : Option Repository) (h : lastNamed recs n = some rec) : GetFullName rec = n := by
  unfold lastNamed at h
  have hmem := List.mem_of_getLast?_eq_some h
  simpa using (List.mem_filter.mp hmem).2

theorem GetFullName_eq_iff (rec : Option Repository) (n : String) (hn : n ≠ "") :
    GetFullName rec = n ↔ fullName? rec = some n := by
  cases rec with
  | none =>
    simp only [GetFullName, fullName?]
    constructor
    · intro h; exact absurd h.symm hn
    · intro h; cases h
  | some r =>
    cases hfn : r.FullName with
    | none =>
      simp only [GetFullName, fullName?, hfn, Option.getD_none]
      constructor
      · intro h; exact absurd h.symm hn
      · intro h; cases h
    | some fn => simp [GetFullName, fullName?, hfn]

theorem collect_get?_flags (recs : List (Option Repository)) (n : String) :
    PermMap.get? (GetUserAppRepoPermissions.collect recs) n =
      ((recs.filter (fun rec => GetFullName rec = n)).getLast?).map
        (fun rec =>
          { Repo := n, Admin := permissionFlag rec "admin",
            Push := permissionFlag rec "push", Pull := permissionFlag rec "pull" }) := by
  rw [collect_get?]
  cases hl : lastNamed recs n with
  | none =>
    unfold lastNamed at hl
    rw [hl]
    rfl
  | some rec =>
    have hname := lastNamed_name _ _ _ hl
    unfold lastNamed at hl
    rw [hl, Option.map_some', Option.map_some', descriptor_flags, hname]

/-! ## Lemmas on `GetInstallationTokenForRepo` -/

theorem SplitN_one (s : String) (sep : Char) : SplitN s sep 1 = [s] := by
  simp [SplitN, genSplit]

theorem GetInstallationTokenForRepo_eq {σ : Type} (c : Client σ) (s : σ) (instID : Int)
    (reponame : String) :
    GetInstallationTokenForRepo c s instID reponame =
      ⟨"", some ("malformed repo name (expected: [owner]/[name]): " ++ reponame), s, []⟩ := by
  simp [GetInstallationTokenForRepo, SplitN_one]

/-! ## Claims on `GetInstallationTokenForRepo` -/

/-- C1 (evaluation at the failing input): on the well-formed name `org/a`,
against an upstream that knows the repository and grants every token request,
`GetInstallationTokenForRepo` returns the empty token with the malformed-name
error and makes no upstream call, although the lookup and the token request
run on the parts `org` and `a` would have returned the token `tkn-7`. -/
theorem GetInstallationTokenForRepo_org_a_rejected :
    (GetInstallationTokenForRepo grantingClient () 42 "org/a").val = "" ∧
    (GetInstallationTokenForRepo grantingClient () 42 "org/a").err =
      some "malformed repo name (expected: [owner]/[name]): org/a" ∧
    (GetInstallationTokenForRepo grantingClient () 42 "org/a").calls = [] ∧
    isOwnerSlashName "org/a" = true ∧
    (GetInstallationTokenForRepo.issue grantingClient () 42 "org" "a").val = "tkn-7" ∧
    (GetInstallationTokenForRepo.issue grantingClient () 42 "org" "a").err = none := by
  refine ⟨?_, ?_, ?_, ?_, ?_, ?_⟩
  · rw [GetInstallationTokenForRepo_eq]
  · rw [GetInstallationTokenForRepo_eq]; rfl
  · rw [GetInstallationTokenForRepo_eq]
  · decide
  · rfl
  · rfl

/-- C2: for every repository name that is not of the form `owner/name`,
`GetInstallationTokenForRepo` returns the empty token with a non-nil error,
makes no upstream call at all and leaves the upstream state untouched. -/
theorem GetInstallationTokenForRepo_malformed {σ : Type} (c : Client σ) (s : σ)
    (instID : Int) (reponame : String) (h : isOwnerSlashName reponame = false) :
    (GetInstallationTokenForRepo c s instID reponame).val = "" ∧
    (GetInstallationTokenForRepo c s instID reponame).err =
      some ("malformed repo name (expected: [owner]/[name]): " ++ reponame) ∧
    (GetInstallationTokenForRepo c s instID reponame).calls = [] ∧
    (GetInstallationTokenForRepo c s instID reponame).state = s := by
  have _ := h
  rw [GetInstallationTokenForRepo_eq]
  exact ⟨rfl, rfl, rfl, rfl⟩

/-- Witness of C2 at the name `bad-repo-name`, which has no separator. -/
theorem GetInstallationTokenForRepo_malformed_witness :
    isOwnerSlashName "bad-repo-name" = false ∧
    (GetInstallationTokenForRepo grantingClient () 42 "bad-repo-name").val = "" ∧
    (GetInstallationTokenForRepo grantingClient () 42 "bad-repo-name").err =
      some ("malformed repo name (expected: [owner]/[name]): " ++ "bad-repo-name") ∧
    (GetInstallationTokenForRepo grantingClient () 42 "bad-repo-name").calls = [] ∧
    (GetInstallationTokenForRepo grantingClient () 42 "bad-repo-name").state = () :=
  ⟨by decide, GetInstallationTokenForRepo_malformed grantingClient () 42 "bad-repo-name"
    (by decide)⟩

/-- C3: `GetInstallationTokenForRepo` either makes no upstream call or is the
lookup-and-request code run on the two parts of the name; and every token
request that code sends, for any installation id, owner and name, goes to the
installation asked for, is scoped to the singleton list holding the identifier
that the repository lookup returned, names no repository otherwise, and asks
for `contents`, `content-references` and `metadata` at level `read` with every
other permission field unset. -/
theorem token_request_single_repo_read_only {σ : Type} (c : Client σ) (s : σ) (instID : Int) :
    (∀ reponame : String,
      (GetInstallationTokenForRepo c s instID reponame).calls = [] ∨
      GetInstallationTokenForRepo c s instID reponame =
        GetInstallationTokenForRepo.issue c s instID
          ((SplitN reponame '/' 1).getD 0 "") ((SplitN reponame '/' 1).getD 1 "")) ∧
    (∀ (owner name : String) (i : Int) (opts : InstallationTokenOptions),
      Call.createInstallationToken i opts ∈
        (GetInstallationTokenForRepo.issue c s instID owner name).calls →
      i = instID ∧
      (∃ (r : Repository) (id : Int),
        (c.RepositoriesGet s owner name).1 = (some r, none) ∧ r.ID = some id ∧
        opts.RepositoryIDs = [id]) ∧
      opts.Repositories = [] ∧
      opts.Permissions =
        some { Contents := some "read", ContentReferences := some "read",
               Metadata := some "read", Other := [] }) := by
  constructor
  · intro reponame
    left
    rw [GetInstallationTokenForRepo_eq]
  · intro owner name i opts h
    unfold GetInstallationTokenForRepo.issue at h
    rcases hc : c.RepositoriesGet s owner name with ⟨⟨repo, err⟩, s1⟩
    rw [hc] at h
    cases err with
    | some e => simp at h
    | none =>
      cases repo with
      | none => simp at h
      | some r =>
        cases hid : r.ID with
        | none => simp [hid] at h
        | some repoID =>
          simp only [hid] at h
          have hmem : Call.createInstallationToken i opts ∈
              [Call.repositoriesGet owner name] ++
                [Call.createInstallationToken instID
                  { RepositoryIDs := [repoID],
                    Permissions := some
                      { Contents := some read, ContentReferences := some read,
                        Metadata := some read } }] := by
            split at h
            · exact h
            · exact h
            · split at h <;> exact h
          simp only [List.mem_append, List.mem_singleton, Call.createInstallationToken.injEq,
            reduceCtorEq, false_or] at hmem
          obtain ⟨hi, ho⟩ := hmem
          subst hi
          subst ho
          exact ⟨rfl, ⟨r, repoID, rfl, hid, rfl⟩, rfl, rfl⟩

/-- Witness of C3: against the granting upstream, the request sent for
installation 42 and the parts `org` and `a` is the one the theorem describes. -/
theorem token_request_single_repo_read_only_witness :
    Call.createInstallationToken 42
        { RepositoryIDs := [7],
          Permissions := some { Contents := some "read", ContentReferences := some "read",
                                Metadata := some "read" } } ∈
      (GetInstallationTokenForRepo.issue grantingClient () 42 "org" "a").calls ∧
    ((42 : Int) = 42 ∧
      (∃ (r : Repository) (id : Int),
        (grantingClient.RepositoriesGet () "org" "a").1 = (some r, none) ∧ r.ID = some id ∧
        [(7 : Int)] = [id]) ∧
      ([] : List String) = [] ∧
      some ({ Contents := some "read", ContentReferences := some "read",
              Metadata := some "read" } : InstallationPermissions) =
        some { Contents := some "read", ContentReferences := some "read",
               Metadata := some "read", Other := [] }) :=
  ⟨by decide,
    (token_request_single_repo_read_only grantingClient () 42).2 "org" "a" 42
      { RepositoryIDs := [7],
        Permissions := some { Contents := some "read", ContentReferences := some "read",
                              Metadata := some "read" } }
      (by decide)⟩

/-! ## Claims on the page loops -/

/-- C4: for each of the three listing operations, when the upstream answers
the chain of pages `rs` without error (each request after the first carrying
the previous response's `NextPage`, the last page being the first one with
`NextPage = 0`), the operation returns with any fuel of at least `rs.length`,
without error; the requests it made are exactly one per page of `rs`, the
first for page 0 and each later one for the `NextPage` before it; and its
result is computed from the records of all pages of `rs`, whatever the number
of items on an intermediate page: the installation list has one entry per
record of every page, the repository list holds the full name of every named
record of every page, and the permission map has, under every name that
`GetFullName` reads on some record of some page, the flags of the last such
record. -/
theorem listing_stops_at_first_sentinel {σ : Type} (c : Client σ) (s : σ) (instID : Int) :
    (∀ (rs : List (List (Option Installation) × Response)) (fuel : Nat),
      Drains c.ListUserInstallations s { Page := 0, PerPage := 100 } rs → rs.length ≤ fuel →
      ∃ r, GetUserAppInstallations c fuel s = some r ∧ r.err = none ∧
        r.val = some (appInstallationsFromGitHubInstallations (installationRecords rs)) ∧
        r.calls = ((0 :: rs.map (fun pg => pg.2.NextPage)).take rs.length).map
          (fun p => Call.listUserInstallations { Page := p, PerPage := 100 })) ∧
    (∀ (rs : List (ListRepositories × Response)) (fuel : Nat),
      Drains (fun s lopt => c.ListUserRepos s instID lopt) s { Page := 0, PerPage := 100 } rs →
      rs.length ≤ fuel →
      ∃ r, GetUserAppRepos c fuel s instID = some r ∧ r.err = none ∧
        r.val = some ((repositoryRecords rs).filterMap fullName?) ∧
        r.calls = ((0 :: rs.map (fun pg => pg.2.NextPage)).take rs.length).map
          (fun p => Call.listUserRepos instID { Page := p, PerPage := 100 })) ∧
    (∀ (rs : List (ListRepositories × Response)) (fuel : Nat),
      Drains (fun s lopt => c.ListUserRepos s instID lopt) s { Page := 0, PerPage := 100 } rs →
      rs.length ≤ fuel →
      ∃ r, GetUserAppRepoPermissions c fuel s instID = some r ∧ r.err = none ∧
        r.val = some (GetUserAppRepoPermissions.collect (repositoryRecords rs)) ∧
        r.calls = ((0 :: rs.map (fun pg => pg.2.NextPage)).take rs.length).map
          (fun p => Call.listUserRepos instID { Page := p, PerPage := 100 }) ∧
        ∃ m, r.val = some m ∧
          (∀ n : String, PermMap.get? m n =
            (((repositoryRecords rs).filter (fun rec => GetFullName rec = n)).getLast?).map
              (fun rec =>
                { Repo := n, Admin := permissionFlag rec "admin",
                  Push := permissionFlag rec "push", Pull := permissionFlag rec "pull" })) ∧
          (∀ rec ∈ repositoryRecords rs, ∃ desc : AppRepoPermissions,
            PermMap.get? m (GetFullName rec) = some desc ∧ desc.Repo = GetFullName rec)) := by
  refine ⟨?_, ?_, ?_⟩
  · intro rs fuel h hf
    refine ⟨_, GetUserAppInstallations_loop_drains c rs fuel s _ [] [] h hf, rfl, ?_, ?_⟩
    · simp
    · simp [requests_pages, List.map_map, Function.comp_def]
  · intro rs fuel h hf
    refine ⟨_, GetUserAppRepos_loop_drains c instID rs fuel s _ [] [] h hf, rfl, ?_, ?_⟩
    · simp
    · simp [requests_pages, List.map_map, Function.comp_def]
  · intro rs fuel h hf
    refine ⟨_, GetUserAppRepoPermissions_loop_drains c instID rs fuel s _ [] [] h hf, rfl, ?_, ?_,
      _, rfl, ?_, ?_⟩
    · simp
    · simp [requests_pages, List.map_map, Function.comp_def]
    · intro n
      rw [List.nil_append]
      exact collect_get?_flags (repositoryRecords rs) n
    · intro rec hrec
      rw [List.nil_append, collect_get?_flags]
      have hmem : rec ∈ (repositoryRecords rs).filter
          (fun x => decide (GetFullName x = GetFullName rec)) :=
        List.mem_filter.mpr ⟨hrec, by simp⟩
      cases hl : ((repositoryRecords rs).filter
          (fun x => decide (GetFullName x = GetFullName rec))).getLast? with
      | none =>
        have hnil := List.getLast?_eq_none_iff.mp hl
        rw [hnil] at hmem
        exact absurd hmem (List.not_mem_nil _)
      | some last => exact ⟨_, rfl, rfl⟩

theorem sampleClient_drains_installations :
    Drains sampleClient.ListUserInstallations () { Page := 0, PerPage := 100 }
      sampleInstallationPages := by
  simp [Drains, sampleClient, tableClient, pageTable, sampleInstallationPages]

theorem sampleClient_drains_repositories (instID : Int) :
    Drains (fun s lopt => sampleClient.ListUserRepos s instID lopt) ()
      { Page := 0, PerPage := 100 } sampleRepositoryPages := by
  simp [Drains, sampleClient, tableClient, pageTable, sampleRepositoryPages]

/-- Witness of C4 on the sample upstream, whose middle page is empty: each
operation asks for the pages 0, 2 and 5 and its result covers the records of
the page that follows the empty one; the permission map holds `org/b`, which
is only on the last page, and `org/a` with the flags of the last page. -/
theorem listing_stops_at_first_sentinel_witness :
    (Drains sampleClient.ListUserInstallations () { Page := 0, PerPage := 100 }
        sampleInstallationPages ∧ sampleInstallationPages.length ≤ 3 ∧
      (∃ r, GetUserAppInstallations sampleClient 3 () = some r ∧ r.err = none ∧
        r.val = some (appInstallationsFromGitHubInstallations
          (installationRecords sampleInstallationPages)) ∧
        r.calls =
          ((0 :: sampleInstallationPages.map (fun pg => pg.2.NextPage)).take
            sampleInstallationPages.length).map
            (fun p => Call.listUserInstallations { Page := p, PerPage := 100 })) ∧
      GetUserAppInstallations sampleClient 3 () =
        some ⟨some [{ ID := 11 }, { ID := 12 }, { ID := 13 }], none, (),
          [Call.listUserInstallations { Page := 0, PerPage := 100 },
           Call.listUserInstallations { Page := 2, PerPage := 100 },
           Call.listUserInstallations { Page := 5, PerPage := 100 }]⟩) ∧
    (Drains (fun s lopt => sampleClient.ListUserRepos s 42 lopt) ()
        { Page := 0, PerPage := 100 } sampleRepositoryPages ∧
      sampleRepositoryPages.length ≤ 3 ∧
      (∃ r, GetUserAppRepos sampleClient 3 () 42 = some r ∧ r.err = none ∧
        r.val = some ((repositoryRecords sampleRepositoryPages).filterMap fullName?) ∧
        r.calls =
          ((0 :: sampleRepositoryPages.map (fun pg => pg.2.NextPage)).take
            sampleRepositoryPages.length).map
            (fun p => Call.listUserRepos 42 { Page := p, PerPage := 100 })) ∧
      GetUserAppRepos sampleClient 3 () 42 =
        some ⟨some ["org/a", "org/b", "org/a"], none, (),
          [Call.listUserRepos 42 { Page := 0, PerPage := 100 },
           Call.listUserRepos 42 { Page := 2, PerPage := 100 },
           Call.listUserRepos 42 { Page := 5, PerPage := 100 }]⟩) ∧
    ((∃ r, GetUserAppRepoPermissions sampleClient 3 () 42 = some r ∧ r.err = none ∧
        r.val =
          some (GetUserAppRepoPermissions.collect (repositoryRecords sampleRepositoryPages)) ∧
        r.calls =
          ((0 :: sampleRepositoryPages.map (fun pg => pg.2.NextPage)).take
            sampleRepositoryPages.length).map
            (fun p => Call.listUserRepos 42 { Page := p, PerPage := 100 }) ∧
        ∃ m, r.val = some m ∧
          (∀ n : String, PermMap.get? m n =
            (((repositoryRecords sampleRepositoryPages).filter
                (fun rec => GetFullName rec = n)).getLast?).map
              (fun rec =>
                { Repo := n, Admin := permissionFlag rec "admin",
                  Push := permissionFlag rec "push", Pull := permissionFlag rec "pull" })) ∧
          (∀ rec ∈ repositoryRecords sampleRepositoryPages, ∃ desc : AppRepoPermissions,
            PermMap.get? m (GetFullName rec) = some desc ∧ desc.Repo = GetFullName rec)) ∧
      GetUserAppRepoPermissions sampleClient 3 () 42 =
        some ⟨some [("org/a", { Repo := "org/a", Admin := false, Push := false, Pull := true }),
                    ("org/b", { Repo := "org/b", Admin := false, Push := false, Pull := false })],
          none, (),
          [Call.listUserRepos 42 { Page := 0, PerPage := 100 },
           Call.listUserRepos 42 { Page := 2, PerPage := 100 },
           Call.listUserRepos 42 { Page := 5, PerPage := 100 }]⟩ ∧
      PermMap.get?
          [("org/a", { Repo := "org/a", Admin := false, Push := false, Pull := true }),
           ("org/b", { Repo := "org/b", Admin := false, Push := false, Pull := false })]
          "org/b" =
        some { Repo := "org/b", Admin := false, Push := false, Pull := false }) :=
  ⟨⟨sampleClient_drains_installations, by decide,
      (listing_stops_at_first_sentinel sampleClient () 42).1 sampleInstallationPages 3
        sampleClient_drains_installations (by decide),
      rfl⟩,
    ⟨sampleClient_drains_repositories 42, by decide,
      (listing_stops_at_first_sentinel sampleClient () 42).2.1 sampleRepositoryPages 3
        (sampleClient_drains_repositories 42) (by decide),
      rfl⟩,
    ⟨(listing_stops_at_first_sentinel sampleClient () 42).2.2 sampleRepositoryPages 3
        (sampleClient_drains_repositories 42) (by decide),
      rfl, rfl⟩⟩

/-- C5: for each of the three listing operations, when the upstream answers
the pages `rs` without error, none of them the last, and fails the request
that follows with error `e`, the operation returns (with any fuel above
`rs.length`) a nil result and a non-nil error that wraps `e`, however many
pages and items came before; the requests it made are one per page of `rs`
and then the failing one, which is the last call. -/
theorem listing_aborts_on_page_error {σ : Type} (c : Client σ) (s : σ) (instID : Int) :
    (∀ (rs : List (List (Option Installation) × Response)) (e : String) (fuel : Nat),
      FailsAfter c.ListUserInstallations s { Page := 0, PerPage := 100 } rs e →
      rs.length < fuel →
      ∃ r, GetUserAppInstallations c fuel s = some r ∧ r.val = none ∧
        r.err = some ("error listing user installations: " ++ e) ∧
        r.calls = (0 :: rs.map (fun pg => pg.2.NextPage)).map
          (fun p => Call.listUserInstallations { Page := p, PerPage := 100 })) ∧
    (∀ (rs : List (ListRepositories × Response)) (e : String) (fuel : Nat),
      FailsAfter (fun s lopt => c.ListUserRepos s instID lopt) s
        { Page := 0, PerPage := 100 } rs e →
      rs.length < fuel →
      ∃ r, GetUserAppRepos c fuel s instID = some r ∧ r.val = none ∧
        r.err = some ("error listing user repos: " ++ e) ∧
        r.calls = (0 :: rs.map (fun pg => pg.2.NextPage)).map
          (fun p => Call.listUserRepos instID { Page := p, PerPage := 100 })) ∧
    (∀ (rs : List (ListRepositories × Response)) (e : String) (fuel : Nat),
      FailsAfter (fun s lopt => c.ListUserRepos s instID lopt) s
        { Page := 0, PerPage := 100 } rs e →
      rs.length < fuel →
      ∃ r, GetUserAppRepoPermissions c fuel s instID = some r ∧ r.val = none ∧
        r.err = some ("error listing user repos: " ++ e) ∧
        r.calls = (0 :: rs.map (fun pg => pg.2.NextPage)).map
          (fun p => Call.listUserRepos instID { Page := p, PerPage := 100 })) := by
  refine ⟨?_, ?_, ?_⟩
  · intro rs e fuel h hf
    refine ⟨_, GetUserAppInstallations_loop_fails c rs e fuel s _ [] [] h hf, rfl, rfl, ?_⟩
    rw [requests_snoc_pages]
    simp [List.map_map, Function.comp_def]
  · intro rs e fuel h hf
    refine ⟨_, GetUserAppRepos_loop_fails c instID rs e fuel s _ [] [] h hf, rfl, rfl, ?_⟩
    rw [requests_snoc_pages]
    simp [List.map_map, Function.comp_def]
  · intro rs e fuel h hf
    refine ⟨_, GetUserAppRepoPermissions_loop_fails c instID rs e fuel s _ [] [] h hf,
      rfl, rfl, ?_⟩
    rw [requests_snoc_pages]
    simp [List.map_map, Function.comp_def]

theorem failingClient_fails_installations :
    FailsAfter failingClient.ListUserInstallations () { Page := 0, PerPage := 100 }
      (sampleInstallationPages.take 2) "timeout" := by
  simp [FailsAfter, failingClient, tableClient, pageTable, sampleInstallationPages]

theorem failingClient_fails_repositories (instID : Int) :
    FailsAfter (fun s lopt => failingClient.ListUserRepos s instID lopt) ()
      { Page := 0, PerPage := 100 } (sampleRepositoryPages.take 2) "timeout" := by
  simp [FailsAfter, failingClient, tableClient, pageTable, sampleRepositoryPages]

/-- Witness of C5 on the upstream that serves two pages and then times out on
page 5: each operation returns nil and the wrapped error after asking for the
pages 0, 2 and 5. -/
theorem listing_aborts_on_page_error_witness :
    (FailsAfter failingClient.ListUserInstallations () { Page := 0, PerPage := 100 }
        (sampleInstallationPages.take 2) "timeout" ∧
      (sampleInstallationPages.take 2).length < 3 ∧
      (∃ r, GetUserAppInstallations failingClient 3 () = some r ∧ r.val = none ∧
        r.err = some ("error listing user installations: " ++ "timeout") ∧
        r.calls = (0 :: (sampleInstallationPages.take 2).map (fun pg => pg.2.NextPage)).map
          (fun p => Call.listUserInstallations { Page := p, PerPage := 100 })) ∧
      GetUserAppInstallations failingClient 3 () =
        some ⟨none, some "error listing user installations: timeout", (),
          [Call.listUserInstallations { Page := 0, PerPage := 100 },
           Call.listUserInstallations { Page := 2, PerPage := 100 },
           Call.listUserInstallations { Page := 5, PerPage := 100 }]⟩) ∧
    (FailsAfter (fun s lopt => failingClient.ListUserRepos s 42 lopt) ()
        { Page := 0, PerPage := 100 } (sampleRepositoryPages.take 2) "timeout" ∧
      (sampleRepositoryPages.take 2).length < 3 ∧
      (∃ r, GetUserAppRepos failingClient 3 () 42 = some r ∧ r.val = none ∧
        r.err = some ("error listing user repos: " ++ "timeout") ∧
        r.calls = (0 :: (sampleRepositoryPages.take 2).map (fun pg => pg.2.NextPage)).map
          (fun p => Call.listUserRepos 42 { Page := p, PerPage := 100 }))) ∧
    (∃ r, GetUserAppRepoPermissions failingClient 3 () 42 = some r ∧ r.val = none ∧
      r.err = some ("error listing user repos: " ++ "timeout") ∧
      r.calls = (0 :: (sampleRepositoryPages.take 2).map (fun pg => pg.2.NextPage)).map
        (fun p => Call.listUserRepos 42 { Page := p, PerPage := 100 })) :=
  ⟨⟨failingClient_fails_installations, by decide,
      (listing_aborts_on_page_error failingClient () 42).1 (sampleInstallationPages.take 2)
        "timeout" 3 failingClient_fails_installations (by decide),
      rfl⟩,
    ⟨failingClient_fails_repositories 42, by decide,
      (listing_aborts_on_page_error failingClient () 42).2.1 (sampleRepositoryPages.take 2)
        "timeout" 3 (failingClient_fails_repositories 42) (by decide)⟩,
    (listing_aborts_on_page_error failingClient () 42).2.2 (sampleRepositoryPages.take 2)
      "timeout" 3 (failingClient_fails_repositories 42) (by decide)⟩

/-! ## Claims on installations -/

/-- C6: when the upstream answers the chain of pages `rs` without error and
every installation record on them is present and carries an identifier,
`GetUserAppInstallations` returns, without error, a list with exactly one
entry per record, in page order and in-page order, each entry holding the
identifier of its record. -/
theorem GetUserAppInstallations_exact {σ : Type} (c : Client σ) (s : σ)
    (rs : List (List (Option Installation) × Response)) (fuel : Nat)
    (h : Drains c.ListUserInstallations s { Page := 0, PerPage := 100 } rs)
    (hf : rs.length ≤ fuel)
    (hall : ∀ rec ∈ installationRecords rs, ∃ id : Int, rec = some { ID := some id }) :
    ∃ r out, GetUserAppInstallations c fuel s = some r ∧ r.err = none ∧ r.val = some out ∧
      out.map (fun a => some ({ ID := some a.ID } : Installation)) = installationRecords rs ∧
      out.map (fun a => a.ID) = (installationRecords rs).filterMap installationID? := by
  refine ⟨_, _, GetUserAppInstallations_loop_drains c rs fuel s _ [] [] h hf, rfl, rfl, ?_, ?_⟩
  · simpa using appInstallations_map_of_complete _ hall
  · have hm := appInstallations_map_of_complete _ hall
    simp only [List.nil_append]
    generalize appInstallationsFromGitHubInstallations (installationRecords rs) = out at hm
    rw [← hm]
    clear hm
    induction out with
    | nil => rfl
    | cons a rest ih => simpa [installationID?] using ih

/-- Witness of C6 on the sample upstream: the identifiers 11, 12, 13. -/
theorem GetUserAppInstallations_exact_witness :
    (Drains sampleClient.ListUserInstallations () { Page := 0, PerPage := 100 }
        sampleInstallationPages ∧
      sampleInstallationPages.length ≤ 3 ∧
      (∀ rec ∈ installationRecords sampleInstallationPages,
        ∃ id : Int, rec = some { ID := some id })) ∧
    ∃ r out, GetUserAppInstallations sampleClient 3 () = some r ∧ r.err = none ∧
      r.val = some out ∧
      out.map (fun a => some ({ ID := some a.ID } : Installation)) =
        installationRecords sampleInstallationPages ∧
      out.map (fun a => a.ID) =
        (installationRecords sampleInstallationPages).filterMap installationID? :=
  ⟨⟨sampleClient_drains_installations, by decide, by
      simp [installationRecords, sampleInstallationPages]⟩,
    GetUserAppInstallations_exact sampleClient () sampleInstallationPages 3
      sampleClient_drains_installations (by decide)
      (by simp [installationRecords, sampleInstallationPages])⟩

/-- C7 as stated fails: the upstream answers one page holding one record
without an identifier; `GetUserAppInstallations` succeeds with one entry of
identifier 0, so `IDPresent 0` is true although no record on the drained page
carries the identifier 0. -/
theorem IDPresent_zero_without_record :
    Drains blankClient.ListUserInstallations () { Page := 0, PerPage := 100 }
      [([some { ID := none }], { NextPage := 0 })] ∧
    GetUserAppInstallations blankClient 1 () =
      some ⟨some [{ ID := 0 }], none, (),
        [Call.listUserInstallations { Page := 0, PerPage := 100 }]⟩ ∧
    IDPresent [{ ID := 0 }] 0 = true ∧
    ¬ ∃ rec ∈ installationRecords [([some { ID := none }], { NextPage := 0 })],
        installationID? rec = some 0 := by
  refine ⟨?_, rfl, rfl, ?_⟩
  · simp [Drains, blankClient, tableClient]
  · simp [installationRecords, installationID?]

/-- C7 amended: when the upstream answers the chain of pages `rs` without
error, `GetUserAppInstallations` succeeds and, for every integer `id`,
`IDPresent id` on its result is true if and only if some record on the drained
pages carries the identifier `id`, or `id` is 0 and some record on them is nil
or carries no identifier. -/
theorem IDPresent_iff_record {σ : Type} (c : Client σ) (s : σ)
    (rs : List (List (Option Installation) × Response)) (fuel : Nat) (id : Int)
    (h : Drains c.ListUserInstallations s { Page := 0, PerPage := 100 } rs)
    (hf : rs.length ≤ fuel) :
    ∃ r out, GetUserAppInstallations c fuel s = some r ∧ r.err = none ∧ r.val = some out ∧
      (IDPresent out id = true ↔
        (∃ rec ∈ installationRecords rs, installationID? rec = some id) ∨
        (id = 0 ∧ ∃ rec ∈ installationRecords rs, installationID? rec = none)) := by
  refine ⟨_, _, GetUserAppInstallations_loop_drains c rs fuel s _ [] [] h hf, rfl, rfl, ?_⟩
  simpa using IDPresent_appInstallations (installationRecords rs) id

/-- Witness of C7 amended on the sample upstream, at the identifier 12. -/
theorem IDPresent_iff_record_witness :
    (Drains sampleClient.ListUserInstallations () { Page := 0, PerPage := 100 }
        sampleInstallationPages ∧
      sampleInstallationPages.length ≤ 3) ∧
    ∃ r out, GetUserAppInstallations sampleClient 3 () = some r ∧ r.err = none ∧
      r.val = some out ∧
      (IDPresent out 12 = true ↔
        (∃ rec ∈ installationRecords sampleInstallationPages, installationID? rec = some 12) ∨
        ((12 : Int) = 0 ∧
          ∃ rec ∈ installationRecords sampleInstallationPages, installationID? rec = none)) :=
  ⟨⟨sampleClient_drains_installations, by decide⟩,
    IDPresent_iff_record sampleClient () sampleInstallationPages 3 12
      sampleClient_drains_installations (by decide)⟩

/-! ## Claims on repositories and permissions -/

/-- C8: when the upstream answers the chain of pages `rs` without error,
`GetUserAppRepos` returns, without error, exactly the full names of the
records that are present and have one, in page order and then in-page order;
a nil record or a record without a full name adds nothing, and when no record
qualifies the result is the empty list, which is not nil. -/
theorem GetUserAppRepos_exact {σ : Type} (c : Client σ) (s : σ) (instID : Int)
    (rs : List (ListRepositories × Response)) (fuel : Nat)
    (h : Drains (fun s lopt => c.ListUserRepos s instID lopt) s
      { Page := 0, PerPage := 100 } rs)
    (hf : rs.length ≤ fuel) :
    ∃ r, GetUserAppRepos c fuel s instID = some r ∧ r.err = none ∧
      r.val = some ((repositoryRecords rs).filterMap fullName?) ∧
      ((∀ rec ∈ repositoryRecords rs, fullName? rec = none) → r.val = some []) := by
  refine ⟨_, GetUserAppRepos_loop_drains c instID rs fuel s _ [] [] h hf, rfl, ?_, ?_⟩
  · simp
  · intro hnone
    have hnil : (repositoryRecords rs).filterMap fullName? = [] :=
      List.filterMap_eq_nil_iff.mpr hnone
    simp [hnil]

/-- Witness of C8 on the sample upstream. -/
theorem GetUserAppRepos_exact_witness :
    (Drains (fun s lopt => sampleClient.ListUserRepos s 42 lopt) ()
        { Page := 0, PerPage := 100 } sampleRepositoryPages ∧
      sampleRepositoryPages.length ≤ 3) ∧
    (∃ r, GetUserAppRepos sampleClient 3 () 42 = some r ∧ r.err = none ∧
      r.val = some ((repositoryRecords sampleRepositoryPages).filterMap fullName?) ∧
      ((∀ rec ∈ repositoryRecords sampleRepositoryPages, fullName? rec = none) →
        r.val = some [])) ∧
    (repositoryRecords sampleRepositoryPages).filterMap fullName? =
      ["org/a", "org/b", "org/a"] :=
  ⟨⟨sampleClient_drains_repositories 42, by decide⟩,
    GetUserAppRepos_exact sampleClient () 42 sampleRepositoryPages 3
      (sampleClient_drains_repositories 42) (by decide),
    rfl⟩

/-- What the permission map holds: when the upstream answers the chain of
pages `rs` without error,
`GetUserAppRepoPermissions` returns, without error, a map whose entry for a
name `n` is the descriptor of the last record, in page order and then in-page
order, whose full name (as `GetFullName` reads it) is `n`: `Repo` is `n` and
`Admin`, `Push`, `Pull` are the values under the keys `admin`, `push`, `pull`
of that record's permission map, `false` when the key or the map is missing;
there is no entry for `n` when no record has that name. For a non-empty `n`
the records whose `GetFullName` is `n` are those that are present with the
full name `n`. -/
theorem GetUserAppRepoPermissions_last_wins {σ : Type} (c : Client σ) (s : σ) (instID : Int)
    (rs : List (ListRepositories × Response)) (fuel : Nat) (n : String)
    (h : Drains (fun s lopt => c.ListUserRepos s instID lopt) s
      { Page := 0, PerPage := 100 } rs)
    (hf : rs.length ≤ fuel) :
    ∃ r m, GetUserAppRepoPermissions c fuel s instID = some r ∧ r.err = none ∧
      r.val = some m ∧
      PermMap.get? m n =
        (((repositoryRecords rs).filter (fun rec => GetFullName rec = n)).getLast?).map
          (fun rec =>
            { Repo := n, Admin := permissionFlag rec "admin",
              Push := permissionFlag rec "push", Pull := permissionFlag rec "pull" }) ∧
      (n ≠ "" →
        (repositoryRecords rs).filter (fun rec => GetFullName rec = n) =
          (repositoryRecords rs).filter (fun rec => fullName? rec = some n)) := by
  refine ⟨_, _, GetUserAppRepoPermissions_loop_drains c instID rs fuel s _ [] [] h hf,
    rfl, rfl, ?_, ?_⟩
  · rw [List.nil_append, collect_get?]
    cases hl : lastNamed (repositoryRecords rs) n with
    | none =>
      unfold lastNamed at hl
      rw [hl]
      rfl
    | some rec =>
      have hname := lastNamed_name _ _ _ hl
      unfold lastNamed at hl
      rw [hl, Option.map_some', Option.map_some', descriptor_flags, hname]
  · intro hn
    apply List.filter_congr
    intro rec _
    have hiff := GetFullName_eq_iff rec n hn
    by_cases hg : GetFullName rec = n
    · simp [hg, hiff.mp hg]
    · have hf2 : ¬ fullName? rec = some n := fun hx => hg (hiff.mpr hx)
      simp [hg, hf2]

/-- The permission map of the sample upstream at the name `org/a`, which comes on
the first page with `admin` and `pull` set and on the last page with only
`pull` set: the entry is the one of the last page. -/
theorem GetUserAppRepoPermissions_last_wins_witness :
    (Drains (fun s lopt => sampleClient.ListUserRepos s 42 lopt) ()
        { Page := 0, PerPage := 100 } sampleRepositoryPages ∧
      sampleRepositoryPages.length ≤ 3) ∧
    (∃ r m, GetUserAppRepoPermissions sampleClient 3 () 42 = some r ∧ r.err = none ∧
      r.val = some m ∧
      PermMap.get? m "org/a" =
        (((repositoryRecords sampleRepositoryPages).filter
            (fun rec => GetFullName rec = "org/a")).getLast?).map
          (fun rec =>
            { Repo := "org/a", Admin := permissionFlag rec "admin",
              Push := permissionFlag rec "push", Pull := permissionFlag rec "pull" }) ∧
      ("org/a" ≠ "" →
        (repositoryRecords sampleRepositoryPages).filter
            (fun rec => GetFullName rec = "org/a") =
          (repositoryRecords sampleRepositoryPages).filter
            (fun rec => fullName? rec = some "org/a"))) ∧
    (GetUserAppRepoPermissions sampleClient 3 () 42).map (fun r => r.val) =
      some (some [("org/a", { Repo := "org/a", Admin := false, Push := false, Pull := true }),
                  ("org/b", { Repo := "org/b", Admin := false, Push := false, Pull := false })]) :=
  ⟨⟨sampleClient_drains_repositories 42, by decide⟩,
    GetUserAppRepoPermissions_last_wins sampleClient () 42 sampleRepositoryPages 3 "org/a"
      (sampleClient_drains_repositories 42) (by decide),
    rfl⟩

/-- C9 (evaluation at the failing input): the upstream answers one page
holding a record whose full name is the empty text, with `admin` set, and then
a nil record. The last record whose full name is the empty text is the first
one, and its `admin` flag is true; `GetUserAppRepoPermissions` files the nil
record under the same key afterwards, so the entry it returns for that name
has every flag false. -/
theorem permissions_nil_record_overwrites_named :
    Drains (fun s lopt => emptyNameClient.ListUserRepos s 42 lopt) ()
      { Page := 0, PerPage := 100 } emptyNamePages ∧
    GetUserAppRepoPermissions emptyNameClient 1 () 42 =
      some ⟨some [("", { Repo := "", Admin := false, Push := false, Pull := false })], none, (),
        [Call.listUserRepos 42 { Page := 0, PerPage := 100 }]⟩ ∧
    ((repositoryRecords emptyNamePages).filter (fun rec => fullName? rec = some "")).getLast? =
      some (some { ID := some 5, FullName := some "",
                   Permissions := some [("admin", true)] }) ∧
    permissionFlag
        (some { ID := some 5, FullName := some "", Permissions := some [("admin", true)] })
        "admin" = true ∧
    PermMap.get? [("", { Repo := "", Admin := false, Push := false, Pull := false })] "" ≠
      some { Repo := "", Admin := true, Push := false, Pull := false } := by
  refine ⟨?_, rfl, ?_, rfl, ?_⟩
  · decide
  · decide
  · decide

/-- C10 (evaluation at the failing input): the upstream answers one page
holding a nil record and a record without a full name. `GetUserAppRepos`
skips both and returns the empty list, while `GetUserAppRepoPermissions`
returns a map with one entry, under the empty name, carrying the flags of the
record without a name: the key set is not the set of listed names. -/
theorem permissions_keep_nameless_record :
    Drains (fun s lopt => blankClient.ListUserRepos s 42 lopt) ()
      { Page := 0, PerPage := 100 }
      [({ Repositories :=
            [none, some { ID := some 3, FullName := none,
                          Permissions := some [("admin", true)] }] },
        { NextPage := 0 })] ∧
    GetUserAppRepos blankClient 1 () 42 =
      some ⟨some [], none, (), [Call.listUserRepos 42 { Page := 0, PerPage := 100 }]⟩ ∧
    GetUserAppRepoPermissions blankClient 1 () 42 =
      some ⟨some [("", { Repo := "", Admin := true, Push := false, Pull := false })], none, (),
        [Call.listUserRepos 42 { Page := 0, PerPage := 100 }]⟩ ∧
    PermMap.keys [("", { Repo := "", Admin := true, Push := false, Pull := false })] = [""] ∧
    "" ∉ ([] : List String) := by
  refine ⟨?_, rfl, rfl, rfl, ?_⟩
  · simp [Drains, blankClient, tableClient]
  · simp

end ghclient

/-! # Verification development for `pkg/api/api_v2.go`

A shallow embedding of the v2 HTTP handlers `logsHandler`, `envSearchHandler`,
`marshalQAEnvironments` and `eventLogHandler`.

Modelling conventions.

* A handler returns the list of effects it performs, in order: writes to the
  `http.ResponseWriter`, lines given to the logger and data-layer searches.
* Code of other packages is a field of `Deps`: the data layer, `uuid.Parse`,
  `json.Marshal`, `models.EnvironmentStatusFromString` and the error writers
  of `apiBase`. Every theorem holds for all of them.
* `url.Values` is a list with one entry per distinct key; its order is the
  order in which `range` visits the keys.
-/

namespace api

/-! ## Data model -/

/-- Go `uuid.UUID`, sixteen bytes read as one number. -/
structure UUID where
  val : Nat
  deriving DecidableEq, Repr

/-- One call on the `http.ResponseWriter`. -/
inductive WOp where
  | headerAdd (key value : String)
  | writeHeader (code : Nat)
  | write (body : String)
  deriving DecidableEq, Repr

/-- Go `models.EnvSearchParameters`: the fields `envSearchHandler` assigns.
`Status` is the integer type `models.EnvironmentStatus`, zero when unset. -/
structure EnvSearchParameters where
  Repo : String := ""
  Pr : Nat := 0
  SourceSHA : String := ""
  SourceBranch : String := ""
  User : String := ""
  Status : Int := 0
  TrackingRef : String := ""
  deriving DecidableEq, Repr

/-- One effect of a handler. -/
inductive Event where
  | resp (op : WOp)
  | log (line : String)
  | search (ops : EnvSearchParameters)
  deriving DecidableEq, Repr

/-- Go `models.QAEnvironment`: the text and number fields that
`v2QAEnvironmentFromQAEnvironment` copies. -/
structure QAEnvironment where
  Name : String
  RawEvents : List String
  Hostname : String
  QAType : String
  User : String
  Repo : String
  PullRequest : Nat
  SourceSHA : String
  BaseSHA : String
  SourceBranch : String
  BaseBranch : String
  SourceRef : String
  RawStatus : String
  AminoKubernetesNamespace : String
  AminoEnvironmentID : Int
  deriving DecidableEq, Repr

/-- Go `v2QAEnvironment`, the output schema of an environment. -/
structure v2QAEnvironment where
  Name : String
  RawEvents : List String
  Hostname : String
  QAType : String
  User : String
  Repo : String
  PullRequest : Nat
  SourceSHA : String
  BaseSHA : String
  SourceBranch : String
  BaseBranch : String
  SourceRef : String
  RawStatus : String
  AminoKubernetesNamespace : String
  AminoEnvironmentID : Int
  deriving DecidableEq, Repr

/-- Go `models.EventLog`: the fields the handlers read. -/
structure EventLog where
  ID : UUID
  EnvName : String
  Repo : String
  PullRequest : Nat
  WebhookPayload : String
  Log : List String
  LogKey : UUID
  deriving DecidableEq, Repr

/-- Go `v2EventLog`, the output schema of an event log. -/
structure v2EventLog where
  ID : UUID
  EnvName : String
  Repo : String
  PullRequest : Nat
  WebhookPayload : String
  Log : List String
  deriving DecidableEq, Repr

/-- Go `url.Values`. -/
abbrev Values := List (String × List String)

/-- The parts of `http.Request` the handlers read: the header, the route
variables of `mux.Vars` and the parsed query of `r.URL.Query()`. -/
structure Request where
  Header : List (String × List String) := []
  Vars : List (String × String) := []
  Query : Values := []
  deriving DecidableEq, Repr

/-- Code the handlers call that lives in other packages or files. A Go
function with results `(value, error)` that the handler reads independently of
each other returns a pair; `none` is the `nil` error. -/
structure Deps where
  Parse : String → Except String UUID
  GetEventLogByID : UUID → Option EventLog × Option String
  Search : EnvSearchParameters → List QAEnvironment × Option String
  EnvironmentStatusFromString : String → Int × Option String
  MarshalLog : List String → Except String String
  MarshalEventLog : v2EventLog → Except String String
  MarshalEnvs : List v2QAEnvironment → Except String String
  badRequestError : String → List Event
  internalError : String → List Event
  notfoundError : List Event

/-! ## Library functions the handlers call -/

/-- Go `http.Header.Get`: the first value stored under the key, or the empty
string. -/
def HeaderGet (h : List (String × List String)) (key : String) : String :=
  match h.lookup key with
  | some (v :: _) => v
  | _ => ""

/-- Go map read `mux.Vars(r)[key]`: the empty string when the key is missing. -/
def VarsGet (vars : List (String × String)) (key : String) : String :=
  (vars.lookup key).getD ""

/-- Go two-value map read `_, ok := qvars[key]`, the `ok` part. -/
def hasKey (qvars : Values) (key : String) : Bool :=
  (qvars.lookup key).isSome

/-- Decimal digits read left to right; `none` on any other character. -/
def parseDigits : List Char → Nat → Option Nat
  | [], acc => some acc
  | c :: cs, acc =>
    if c.isDigit then parseDigits cs (acc * 10 + (c.toNat - 48)) else none

/-- Magnitude and sign to a 64-bit `int`; `none` when out of range or when
there is no digit. -/
def signedInt (digits : List Char) (negative : Bool) : Option Int :=
  if digits = [] then none
  else
    match parseDigits digits 0 with
    | none => none
    | some n =>
      let v : Int := if negative then -(n : Int) else (n : Int)
      if -(2 ^ 63 : Int) ≤ v ∧ v < (2 ^ 63 : Int) then some v else none

/-- Go `strconv.Atoi` on a 64-bit platform: an optional sign and decimal
digits; `none` stands for the error. -/
def Atoi (s : String) : Option Int :=
  match s.data with
  | '-' :: cs => signedInt cs true
  | '+' :: cs => signedInt cs false
  | cs => signedInt cs false

/-- Text that `%v` prints for a `[]string`. -/
def fmtStrings (vs : List String) : String :=
  "[" ++ " ".intercalate vs ++ "]"

/-! ## Handlers -/

/-- Go `v2QAEnvironmentFromQAEnvironment`. -/
def v2QAEnvironmentFromQAEnvironment (qae : QAEnvironment) : v2QAEnvironment :=
  { Name := qae.Name,
    RawEvents := qae.RawEvents,
    Hostname := qae.Hostname,
    QAType := qae.QAType,
    User := qae.User,
    Repo := qae.Repo,
    PullRequest := qae.PullRequest,
    SourceSHA := qae.SourceSHA,
    BaseSHA := qae.BaseSHA,
    SourceBranch := qae.SourceBranch,
    BaseBranch := qae.BaseBranch,
    SourceRef := qae.SourceRef,
    RawStatus := qae.RawStatus,
    AminoKubernetesNamespace := qae.AminoKubernetesNamespace,
    AminoEnvironmentID := qae.AminoEnvironmentID }

/-- Go `v2EventLogFromEventLog`. -/
def v2EventLogFromEventLog (el : EventLog) : v2EventLog :=
  { ID := el.ID,
    EnvName := el.EnvName,
    Repo := el.Repo,
    PullRequest := el.PullRequest,
    WebhookPayload := el.WebhookPayload,
    Log := el.Log }

/-- Go `marshalQAEnvironments`. -/
def marshalQAEnvironments (d : Deps) (qas : List QAEnvironment) : List Event :=
  let hdr := [Event.resp (WOp.headerAdd "Content-Type" "application/json")]
  let output := qas.foldl (fun output e => output ++ [v2QAEnvironmentFromQAEnvironment e]) []
  match d.MarshalEnvs output with
  | Except.error err => hdr ++ d.internalError ("error marshaling environments: " ++ err)
  | Except.ok j => hdr ++ [Event.resp (WOp.write j)]

/-- The `switch k` of the loop of `envSearchHandler`, for a key `k` with its
single value `v`: the updated parameters, or the effects of the bad-request
answer. A key that no `case` names leaves the parameters as they are. -/
def envSearchHandler.assign (d : Deps) (k v : String) (ops : EnvSearchParameters) :
    Except (List Event) EnvSearchParameters :=
  if k = "repo" then Except.ok { ops with Repo := v }
  else if k = "pr" then
    match Atoi v with
    | none => Except.error (d.badRequestError "bad PR number")
    | some pr =>
      if pr < 1 then Except.error (d.badRequestError "bad PR number")
      else Except.ok { ops with Pr := pr.toNat }
  else if k = "source_sha" then Except.ok { ops with SourceSHA := v }
  else if k = "source_branch" then Except.ok { ops with SourceBranch := v }
  else if k = "user" then Except.ok { ops with User := v }
  else if k = "status" then
    match d.EnvironmentStatusFromString v with
    | (_, some _) => Except.error (d.badRequestError "unknown status")
    | (st, none) => Except.ok { ops with Status := st }
  else if k = "tracking_ref" then Except.ok { ops with TrackingRef := v }
  else Except.ok ops

/-- The loop `for k, vs := range qvars` of `envSearchHandler`. -/
def envSearchHandler.loop (d : Deps) :
    Values → EnvSearchParameters → Except (List Event) EnvSearchParameters
  | [], ops => Except.ok ops
  | (k, vs) :: rest, ops =>
    match vs with
    | [v] =>
      match envSearchHandler.assign d k v ops with
      | Except.error evs => Except.error evs
      | Except.ok ops1 => envSearchHandler.loop d rest ops1
    | _ =>
      Except.error
        (d.badRequestError ("unexpected value for " ++ k ++ ": " ++ fmtStrings vs))

/-- Go `envSearchHandler`. -/
def envSearchHandler (d : Deps) (r : Request) : List Event :=
  let qvars := r.Query
  if hasKey qvars "pr" && !hasKey qvars "repo" then
    d.badRequestError "search by PR requires repo name"
  else if
    (match qvars.lookup "status" with
     | some status => decide (status.head? = some "destroyed") && decide (qvars.length = 1)
     | none => false) then
    d.badRequestError
      "\x27destroyed\x27 status searches require at least one other search parameter"
  else if hasKey qvars "tracking_ref" && !hasKey qvars "repo" then
    d.badRequestError "search by tracking_ref requires repo name"
  else if qvars.length = 0 then
    d.badRequestError "at least one search parameter is required"
  else
    match envSearchHandler.loop d qvars {} with
    | Except.error evs => evs
    | Except.ok ops =>
      match d.Search ops with
      | (qas, err) =>
        [Event.search ops] ++
          (match err with
           | some e => d.internalError ("error searching in DB: " ++ e)
           | none => []) ++
          marshalQAEnvironments d qas

/-- Go `eventLogHandler`. When `json.Marshal` fails its byte slice is nil,
which `w.Write` receives as the empty body. -/
def eventLogHandler (d : Deps) (r : Request) : List Event :=
  let idstr := VarsGet r.Vars "id"
  match d.Parse idstr with
  | Except.error err => d.badRequestError ("error parsing id: " ++ err)
  | Except.ok id =>
    match d.GetEventLogByID id with
    | (_, some err) => d.internalError ("error fetching event logs: " ++ err)
    | (none, none) => d.notfoundError
    | (some el, none) =>
      match d.MarshalEventLog (v2EventLogFromEventLog el) with
      | Except.error err =>
        d.internalError ("error marshaling event log: " ++ err) ++
          [Event.resp (WOp.headerAdd "Content-Type" "application/json"),
           Event.resp (WOp.write "")]
      | Except.ok j =>
        [Event.resp (WOp.headerAdd "Content-Type" "application/json"),
         Event.resp (WOp.write j)]

/-- Go `logsHandler`. -/
def logsHandler (d : Deps) (r : Request) : List Event :=
  let lk := HeaderGet r.Header "Acyl-Log-Key"
  if lk = "" then
    [Event.log "error serving event logs: missing log key",
     Event.resp (WOp.writeHeader 401)]
  else
    match d.Parse lk with
    | Except.error err =>
      [Event.log ("error serving event logs: bad log key: " ++ err),
       Event.resp (WOp.writeHeader 401)]
    | Except.ok lkuuid =>
      let idstr := VarsGet r.Vars "id"
      match d.Parse idstr with
      | Except.error err =>
        [Event.log ("error serving event logs: bad event id: " ++ err),
         Event.resp (WOp.writeHeader 400)]
      | Except.ok id =>
        match d.GetEventLogByID id with
        | (_, some err) =>
          [Event.log ("error serving event logs: error getting event log: " ++ err),
           Event.resp (WOp.writeHeader 500)]
        | (none, none) =>
          [Event.log "error serving event logs: missing event log",
           Event.resp (WOp.writeHeader 404)]
        | (some elog, none) =>
          if elog.LogKey ≠ lkuuid then
            [Event.log "error serving event logs: mismatched log key",
             Event.resp (WOp.writeHeader 401)]
          else
            match d.MarshalLog elog.Log with
            | Except.error err =>
              [Event.log ("error serving event logs: error marshaling log: " ++ err),
               Event.resp (WOp.writeHeader 500)]
            | Except.ok j =>
              [Event.resp (WOp.headerAdd "Content-Type" "application/json"),
               Event.resp (WOp.write j)]

/-! ## Specification vocabulary -/

/-- Calls a handler made on the `http.ResponseWriter`, in order. -/
def respOps (evs : List Event) : List WOp :=
  evs.filterMap fun ev =>
    match ev with
    | Event.resp op => some op
    | _ => none

/-- Parameters a handler gave to the data-layer `Search`, in order. -/
def searches (evs : List Event) : List EnvSearchParameters :=
  evs.filterMap fun ev =>
    match ev with
    | Event.search ops => some ops
    | _ => none

/-- Status line of the response as `net/http` sends it: the code of the first
`WriteHeader`, or 200 when a `Write` comes before any `WriteHeader`. -/
def responseStatus : List WOp → Option Nat
  | [] => none
  | WOp.writeHeader code :: _ => some code
  | WOp.write _ :: _ => some 200
  | WOp.headerAdd _ _ :: rest => responseStatus rest

/-- Sample `uuid.Parse`: a text of decimal digits is the identifier of that
value, anything else is an error. -/
def sampleParse (s : String) : Except String UUID :=
  if s.data = [] then Except.error "invalid UUID length: 0"
  else
    match parseDigits s.data 0 with
    | some n => Except.ok { val := n }
    | none => Except.error "invalid UUID format"

/-- Sample `json.Marshal` of a `[]string`. -/
def sampleMarshalLog (ls : List String) : Except String String :=
  Except.ok ("[" ++ ",".intercalate (ls.map (fun l => "\"" ++ l ++ "\"")) ++ "]")

/-- Sample dependencies: one event log, with identifier 10 and log key 77;
a data layer whose search finds nothing; error writers that set the status
and write the message. -/
def sampleDeps : Deps :=
  { Parse := sampleParse,
    GetEventLogByID := fun id =>
      if id.val = 10 then
        (some { ID := { val := 10 }, EnvName := "env", Repo := "acme/app", PullRequest := 1,
                WebhookPayload := "", Log := ["line one", "line two"],
                LogKey := { val := 77 } }, none)
      else (none, none),
    Search := fun _ => ([], none),
    EnvironmentStatusFromString := fun s =>
      if s = "destroyed" then (4, none)
      else if s = "success" then (2, none)
      else (0, some "unknown status"),
    MarshalLog := sampleMarshalLog,
    MarshalEventLog := fun el => sampleMarshalLog el.Log,
    MarshalEnvs := fun envs => sampleMarshalLog (envs.map (fun e => e.Name)),
    badRequestError := fun msg =>
      [Event.resp (WOp.writeHeader 400), Event.resp (WOp.write msg)],
    internalError := fun msg =>
      [Event.resp (WOp.writeHeader 500), Event.resp (WOp.write msg)],
    notfoundError := [Event.resp (WOp.writeHeader 404)] }

/-! ## Claims on `logsHandler` -/

/-- C11: `logsHandler` writes a body only when the `Acyl-Log-Key` header is
non-empty and parses as a UUID, the path id parses, the data layer finds an
event log for it and that log's `LogKey` equals the parsed header; the body is
then the JSON of the log's `Log` field. When the header is missing (empty),
when it does not parse as a UUID, and when it parses but differs from the
`LogKey` of the event log found for the path id, the only call on the response
is `WriteHeader(401)`: the status is 401 and nothing is written. -/
theorem logsHandler_requires_log_key (d : Deps) (r : Request) :
    (∀ body : String, Event.resp (WOp.write body) ∈ logsHandler d r →
      HeaderGet r.Header "Acyl-Log-Key" ≠ "" ∧
      ∃ (lkuuid id : UUID) (elog : EventLog),
        d.Parse (HeaderGet r.Header "Acyl-Log-Key") = Except.ok lkuuid ∧
        d.Parse (VarsGet r.Vars "id") = Except.ok id ∧
        d.GetEventLogByID id = (some elog, none) ∧
        elog.LogKey = lkuuid ∧
        d.MarshalLog elog.Log = Except.ok body) ∧
    (HeaderGet r.Header "Acyl-Log-Key" = "" →
      respOps (logsHandler d r) = [WOp.writeHeader 401] ∧
      responseStatus (respOps (logsHandler d r)) = some 401) ∧
    (∀ err : String, d.Parse (HeaderGet r.Header "Acyl-Log-Key") = Except.error err →
      respOps (logsHandler d r) = [WOp.writeHeader 401] ∧
      responseStatus (respOps (logsHandler d r)) = some 401) ∧
    (∀ (lkuuid id : UUID) (elog : EventLog),
      HeaderGet r.Header "Acyl-Log-Key" ≠ "" →
      d.Parse (HeaderGet r.Header "Acyl-Log-Key") = Except.ok lkuuid →
      d.Parse (VarsGet r.Vars "id") = Except.ok id →
      d.GetEventLogByID id = (some elog, none) →
      elog.LogKey ≠ lkuuid →
      respOps (logsHandler d r) = [WOp.writeHeader 401] ∧
      responseStatus (respOps (logsHandler d r)) = some 401) := by
  refine ⟨?_, ?_, ?_, ?_⟩
  · intro body h
    unfold logsHandler at h
    by_cases hlk : HeaderGet r.Header "Acyl-Log-Key" = ""
    · simp [hlk] at h
    · refine ⟨hlk, ?_⟩
      simp only [hlk, if_false] at h
      cases hp : d.Parse (HeaderGet r.Header "Acyl-Log-Key") with
      | error err => simp [hp] at h
      | ok lkuuid =>
        simp only [hp] at h
        cases hid : d.Parse (VarsGet r.Vars "id") with
        | error err => simp [hid] at h
        | ok id =>
          simp only [hid] at h
          rcases hg : d.GetEventLogByID id with ⟨elog, gerr⟩
          rw [hg] at h
          cases gerr with
          | some e => simp at h
          | none =>
            cases elog with
            | none => simp at h
            | some elog =>
              simp only at h
              by_cases hk : elog.LogKey = lkuuid
              · simp only [hk, ne_eq, not_true_eq_false, if_false] at h
                cases hm : d.MarshalLog elog.Log with
                | error err => simp [hm] at h
                | ok j =>
                  simp [hm] at h
                  exact ⟨lkuuid, id, elog, rfl, rfl, hg, hk, by rw [hm, h]⟩
              · simp [hk] at h
  · intro hlk
    simp [logsHandler, hlk, respOps, responseStatus]
  · intro err hp
    by_cases hlk : HeaderGet r.Header "Acyl-Log-Key" = ""
    · simp [logsHandler, hlk, respOps, responseStatus]
    · simp [logsHandler, hlk, hp, respOps, responseStatus]
  · intro lkuuid id elog hlk hp hid hg hk
    simp [logsHandler, hlk, hp, hid, hg, hk, respOps, responseStatus]

/-- Witness of C11 on the sample dependencies, whose event log 10 has the log
key 77: the key 77 gets the log lines; no key, the key `zz` and the key 78 get
the status 401 and nothing else. -/
theorem logsHandler_requires_log_key_witness :
    (Event.resp (WOp.write "[\"line one\",\"line two\"]") ∈
        logsHandler sampleDeps { Header := [("Acyl-Log-Key", ["77"])], Vars := [("id", "10")] } ∧
      (HeaderGet [("Acyl-Log-Key", ["77"])] "Acyl-Log-Key" ≠ "" ∧
        ∃ (lkuuid id : UUID) (elog : EventLog),
          sampleDeps.Parse (HeaderGet [("Acyl-Log-Key", ["77"])] "Acyl-Log-Key") =
            Except.ok lkuuid ∧
          sampleDeps.Parse (VarsGet [("id", "10")] "id") = Except.ok id ∧
          sampleDeps.GetEventLogByID id = (some elog, none) ∧
          elog.LogKey = lkuuid ∧
          sampleDeps.MarshalLog elog.Log = Except.ok "[\"line one\",\"line two\"]")) ∧
    (HeaderGet [] "Acyl-Log-Key" = "" ∧
      respOps (logsHandler sampleDeps { Header := [], Vars := [("id", "10")] }) =
        [WOp.writeHeader 401] ∧
      responseStatus (respOps (logsHandler sampleDeps { Header := [], Vars := [("id", "10")] })) =
        some 401) ∧
    (sampleDeps.Parse (HeaderGet [("Acyl-Log-Key", ["zz"])] "Acyl-Log-Key") =
        Except.error "invalid UUID format" ∧
      respOps (logsHandler sampleDeps
          { Header := [("Acyl-Log-Key", ["zz"])], Vars := [("id", "10")] }) =
        [WOp.writeHeader 401] ∧
      responseStatus (respOps (logsHandler sampleDeps
          { Header := [("Acyl-Log-Key", ["zz"])], Vars := [("id", "10")] })) = some 401) ∧
    ((HeaderGet [("Acyl-Log-Key", ["78"])] "Acyl-Log-Key" ≠ "" ∧
        sampleDeps.Parse (HeaderGet [("Acyl-Log-Key", ["78"])] "Acyl-Log-Key") =
          Except.ok { val := 78 } ∧
        sampleDeps.Parse (VarsGet [("id", "10")] "id") = Except.ok { val := 10 } ∧
        (sampleDeps.GetEventLogByID { val := 10 }).1.map (fun el => el.LogKey) =
          some { val := 77 } ∧
        (sampleDeps.GetEventLogByID { val := 10 }).2 = none ∧
        ({ val := 77 } : UUID) ≠ { val := 78 }) ∧
      respOps (logsHandler sampleDeps
          { Header := [("Acyl-Log-Key", ["78"])], Vars := [("id", "10")] }) =
        [WOp.writeHeader 401] ∧
      responseStatus (respOps (logsHandler sampleDeps
          { Header := [("Acyl-Log-Key", ["78"])], Vars := [("id", "10")] })) = some 401) :=
  ⟨⟨by decide,
      (logsHandler_requires_log_key sampleDeps
        { Header := [("Acyl-Log-Key", ["77"])], Vars := [("id", "10")] }).1
        "[\"line one\",\"line two\"]" (by decide)⟩,
    ⟨rfl,
      (logsHandler_requires_log_key sampleDeps
        { Header := [], Vars := [("id", "10")] }).2.1 rfl⟩,
    ⟨rfl,
      (logsHandler_requires_log_key sampleDeps
        { Header := [("Acyl-Log-Key", ["zz"])], Vars := [("id", "10")] }).2.2.1
        "invalid UUID format" rfl⟩,
    ⟨⟨by decide, rfl, rfl, rfl, rfl, by decide⟩,
      (logsHandler_requires_log_key sampleDeps
        { Header := [("Acyl-Log-Key", ["78"])], Vars := [("id", "10")] }).2.2.2
        { val := 78 } { val := 10 }
        { ID := { val := 10 }, EnvName := "env", Repo := "acme/app", PullRequest := 1,
          WebhookPayload := "", Log := ["line one", "line two"], LogKey := { val := 77 } }
        (by decide) rfl rfl rfl (by decide)⟩⟩

/-! ## Claims on `envSearchHandler` and `eventLogHandler` -/

/-- C12 (evaluation at the failing inputs): for the query `foo=bar`, which
holds no recognised search parameter, `envSearchHandler` passes every check
and its first effect is a data-layer search whose parameters are all unset;
for the query `status=destroyed&foo=bar`, whatever status value `destroyed`
parses to, its first effect is a search that carries that status and nothing
else. On the sample dependencies both requests are answered with the
environment list, not with a bad-request error. -/
theorem envSearchHandler_searches_unconstrained (d : Deps) (st : Int) :
    (envSearchHandler d { Query := [("foo", ["bar"])] }).head? =
      some (Event.search
        { Repo := "", Pr := 0, SourceSHA := "", SourceBranch := "", User := "",
          Status := 0, TrackingRef := "" }) ∧
    (envSearchHandler { d with EnvironmentStatusFromString := fun _ => (st, none) }
        { Query := [("status", ["destroyed"]), ("foo", ["bar"])] }).head? =
      some (Event.search
        { Repo := "", Pr := 0, SourceSHA := "", SourceBranch := "", User := "",
          Status := st, TrackingRef := "" }) ∧
    envSearchHandler sampleDeps { Query := [("foo", ["bar"])] } =
      [Event.search {},
       Event.resp (WOp.headerAdd "Content-Type" "application/json"),
       Event.resp (WOp.write "[]")] ∧
    envSearchHandler sampleDeps { Query := [("status", ["destroyed"]), ("foo", ["bar"])] } =
      [Event.search { Status := 4 },
       Event.resp (WOp.headerAdd "Content-Type" "application/json"),
       Event.resp (WOp.write "[]")] ∧
    envSearchHandler sampleDeps { Query := [("status", ["destroyed"])] } =
      sampleDeps.badRequestError
        "\x27destroyed\x27 status searches require at least one other search parameter" := by
  refine ⟨?_, ?_, rfl, rfl, rfl⟩
  · simp [envSearchHandler, hasKey, List.lookup, envSearchHandler.loop,
      envSearchHandler.assign]
  · simp [envSearchHandler, hasKey, List.lookup, envSearchHandler.loop,
      envSearchHandler.assign]

/-- C13 (evaluation at the failing inputs): when the data-layer search fails
with error `e`, `envSearchHandler` reports the internal error and then goes on
to `marshalQAEnvironments`, which adds the `Content-Type` header and writes
the environment list `j`; when marshalling the event log fails with error `e`,
`eventLogHandler` reports the internal error and then adds the `Content-Type`
header and writes the (empty) body. -/
theorem handlers_write_after_internalError (d : Deps) (e j : String)
    (qas : List QAEnvironment) (id : UUID) (el : EventLog) (r : Request) :
    envSearchHandler
        { d with Search := fun _ => (qas, some e), MarshalEnvs := fun _ => Except.ok j }
        { Query := [("repo", ["acme/app"])] } =
      [Event.search { Repo := "acme/app" }] ++
        d.internalError ("error searching in DB: " ++ e) ++
        [Event.resp (WOp.headerAdd "Content-Type" "application/json"),
         Event.resp (WOp.write j)] ∧
    eventLogHandler
        { d with
          Parse := fun _ => Except.ok id,
          GetEventLogByID := fun _ => (some el, none),
          MarshalEventLog := fun _ => Except.error e } r =
      d.internalError ("error marshaling event log: " ++ e) ++
        [Event.resp (WOp.headerAdd "Content-Type" "application/json"),
         Event.resp (WOp.write "")] ∧
    respOps (envSearchHandler { sampleDeps with Search := fun _ => ([], some "db down") }
        { Query := [("repo", ["acme/app"])] }) =
      [WOp.writeHeader 500, WOp.write "error searching in DB: db down",
       WOp.headerAdd "Content-Type" "application/json", WOp.write "[]"] ∧
    respOps (eventLogHandler { sampleDeps with MarshalEventLog := fun _ => Except.error "boom" }
        { Vars := [("id", "10")] }) =
      [WOp.writeHeader 500, WOp.write "error marshaling event log: boom",
       WOp.headerAdd "Content-Type" "application/json", WOp.write ""] := by
  refine ⟨?_, ?_, rfl, rfl⟩
  · simp [envSearchHandler, hasKey, List.lookup, envSearchHandler.loop,
      envSearchHandler.assign, marshalQAEnvironments]
  · simp [eventLogHandler]

end api
